import Mathlib

set_option maxRecDepth 3000

/-!
Verification of the afptool-rs firmware container codec.

This file gives a shallow embedding of the core of the repository
(`src/lib.rs`, `src/pack.rs`, `src/unpack.rs`) and proves properties of it.

Modelling conventions:
* Bytes are `Nat` values; byte strings and buffers are `List Nat` (`Str`).
* Machine-integer arithmetic is `Nat` with explicit `% 2^32` where the Rust
  code works on `u32` and overflow or truncating casts can occur.  Arithmetic
  follows release-profile semantics (wrapping, no overflow panics).
* Fallible Rust functions returning `anyhow::Result` become
  `Except String _`; a Rust `panic!` / out-of-bounds index / process abort is
  modelled as `none` in an outer `Option` layer, so
  `some (.ok v)` = normal return, `some (.error e)` = structured error
  returned to the caller, `none` = the process dies without returning.
* File-system interaction is modelled by passing the relevant file contents
  (as byte lists) and directory contents (as association lists from relative
  path to bytes) explicitly; `println!`/`eprintln!` progress output is not
  modelled.
-/

namespace Afptool

/-- Byte strings: lists of byte values. -/
abbrev Str := List Nat

/-- ASCII byte list of a Lean string literal (used for the fixed ASCII
constants appearing in the source: magics, sentinel names, messages). -/
def asc (s : String) : Str := s.data.map Char.toNat

/-- Little-endian 4-byte encoding of a `u32` value (`u32::to_le_bytes`). -/
def u32le (n : Nat) : Str :=
  [n % 256, n / 256 % 256, n / 65536 % 256, n / 16777216 % 256]

/-- Little-endian 4-byte read at index `i` (`get_u32_le` in `unpack.rs`,
reads out of a buffer whose bounds have already been checked). -/
def u32leAt (b : Str) (i : Nat) : Nat :=
  b.getD i 0 + 256 * b.getD (i + 1) 0 + 65536 * b.getD (i + 2) 0 +
    16777216 * b.getD (i + 3) 0

/-- The RockChip CRC-32 table (`RKCRC32_TABLE` in `pack.rs`). -/
def RKCRC32_TABLE : List Nat := [
  0x00000000, 0x04c10db7, 0x09821b6e, 0x0d4316d9,
  0x130436dc, 0x17c53b6b, 0x1a862db2, 0x1e472005,
  0x26086db8, 0x22c9600f, 0x2f8a76d6, 0x2b4b7b61,
  0x350c5b64, 0x31cd56d3, 0x3c8e400a, 0x384f4dbd,
  0x4c10db70, 0x48d1d6c7, 0x4592c01e, 0x4153cda9,
  0x5f14edac, 0x5bd5e01b, 0x5696f6c2, 0x5257fb75,
  0x6a18b6c8, 0x6ed9bb7f, 0x639aada6, 0x675ba011,
  0x791c8014, 0x7ddd8da3, 0x709e9b7a, 0x745f96cd,
  0x9821b6e0, 0x9ce0bb57, 0x91a3ad8e, 0x9562a039,
  0x8b25803c, 0x8fe48d8b, 0x82a79b52, 0x866696e5,
  0xbe29db58, 0xbae8d6ef, 0xb7abc036, 0xb36acd81,
  0xad2ded84, 0xa9ece033, 0xa4aff6ea, 0xa06efb5d,
  0xd4316d90, 0xd0f06027, 0xddb376fe, 0xd9727b49,
  0xc7355b4c, 0xc3f456fb, 0xceb74022, 0xca764d95,
  0xf2390028, 0xf6f80d9f, 0xfbbb1b46, 0xff7a16f1,
  0xe13d36f4, 0xe5fc3b43, 0xe8bf2d9a, 0xec7e202d,
  0x34826077, 0x30436dc0, 0x3d007b19, 0x39c176ae,
  0x278656ab, 0x23475b1c, 0x2e044dc5, 0x2ac54072,
  0x128a0dcf, 0x164b0078, 0x1b0816a1, 0x1fc91b16,
  0x018e3b13, 0x054f36a4, 0x080c207d, 0x0ccd2dca,
  0x7892bb07, 0x7c53b6b0, 0x7110a069, 0x75d1adde,
  0x6b968ddb, 0x6f57806c, 0x621496b5, 0x66d59b02,
  0x5e9ad6bf, 0x5a5bdb08, 0x5718cdd1, 0x53d9c066,
  0x4d9ee063, 0x495fedd4, 0x441cfb0d, 0x40ddf6ba,
  0xaca3d697, 0xa862db20, 0xa521cdf9, 0xa1e0c04e,
  0xbfa7e04b, 0xbb66edfc, 0xb625fb25, 0xb2e4f692,
  0x8aabbb2f, 0x8e6ab698, 0x8329a041, 0x87e8adf6,
  0x99af8df3, 0x9d6e8044, 0x902d969d, 0x94ec9b2a,
  0xe0b30de7, 0xe4720050, 0xe9311689, 0xedf01b3e,
  0xf3b73b3b, 0xf776368c, 0xfa352055, 0xfef42de2,
  0xc6bb605f, 0xc27a6de8, 0xcf397b31, 0xcbf87686,
  0xd5bf5683, 0xd17e5b34, 0xdc3d4ded, 0xd8fc405a,
  0x6904c0ee, 0x6dc5cd59, 0x6086db80, 0x6447d637,
  0x7a00f632, 0x7ec1fb85, 0x7382ed5c, 0x7743e0eb,
  0x4f0cad56, 0x4bcda0e1, 0x468eb638, 0x424fbb8f,
  0x5c089b8a, 0x58c9963d, 0x558a80e4, 0x514b8d53,
  0x25141b9e, 0x21d51629, 0x2c9600f0, 0x28570d47,
  0x36102d42, 0x32d120f5, 0x3f92362c, 0x3b533b9b,
  0x031c7626, 0x07dd7b91, 0x0a9e6d48, 0x0e5f60ff,
  0x101840fa, 0x14d94d4d, 0x199a5b94, 0x1d5b5623,
  0xf125760e, 0xf5e47bb9, 0xf8a76d60, 0xfc6660d7,
  0xe22140d2, 0xe6e04d65, 0xeba35bbc, 0xef62560b,
  0xd72d1bb6, 0xd3ec1601, 0xdeaf00d8, 0xda6e0d6f,
  0xc4292d6a, 0xc0e820dd, 0xcdab3604, 0xc96a3bb3,
  0xbd35ad7e, 0xb9f4a0c9, 0xb4b7b610, 0xb076bba7,
  0xae319ba2, 0xaaf09615, 0xa7b380cc, 0xa3728d7b,
  0x9b3dc0c6, 0x9ffccd71, 0x92bfdba8, 0x967ed61f,
  0x8839f61a, 0x8cf8fbad, 0x81bbed74, 0x857ae0c3,
  0x5d86a099, 0x5947ad2e, 0x5404bbf7, 0x50c5b640,
  0x4e829645, 0x4a439bf2, 0x47008d2b, 0x43c1809c,
  0x7b8ecd21, 0x7f4fc096, 0x720cd64f, 0x76cddbf8,
  0x688afbfd, 0x6c4bf64a, 0x6108e093, 0x65c9ed24,
  0x11967be9, 0x1557765e, 0x18146087, 0x1cd56d30,
  0x02924d35, 0x06534082, 0x0b10565b, 0x0fd15bec,
  0x379e1651, 0x335f1be6, 0x3e1c0d3f, 0x3add0088,
  0x249a208d, 0x205b2d3a, 0x2d183be3, 0x29d93654,
  0xc5a71679, 0xc1661bce, 0xcc250d17, 0xc8e400a0,
  0xd6a320a5, 0xd2622d12, 0xdf213bcb, 0xdbe0367c,
  0xe3af7bc1, 0xe76e7676, 0xea2d60af, 0xeeec6d18,
  0xf0ab4d1d, 0xf46a40aa, 0xf9295673, 0xfde85bc4,
  0x89b7cd09, 0x8d76c0be, 0x8035d667, 0x84f4dbd0,
  0x9ab3fbd5, 0x9e72f662, 0x9331e0bb, 0x97f0ed0c,
  0xafbfa0b1, 0xab7ead06, 0xa63dbbdf, 0xa2fcb668,
  0xbcbb966d, 0xb87a9bda, 0xb5398d03, 0xb1f880b4]

/-- One step of the RockChip checksum: `crc = (crc << 8) ^ TABLE[((crc >> 24) ^ byte) & 0xFF]`
with `u32` wrapping on the shift (`rkcrc32` loop body in `pack.rs`). -/
def rkcrc32Step (crc b : Nat) : Nat :=
  Nat.xor ((crc <<< 8) % 2 ^ 32) (RKCRC32_TABLE.getD (Nat.xor (crc >>> 24) b % 256) 0)

/-- The RockChip table-driven checksum (`rkcrc32` in `pack.rs`). -/
def rkcrc32 (crc : Nat) (data : List Nat) : Nat :=
  data.foldl rkcrc32Step crc

/-! ### String-field helpers (fixed-width null-terminated buffers) -/

/-- Space-prefixing used for the model / manufacturer / id fields of
`pack_rkaf`: prepend `' '` unless the string already starts with one. -/
def addSpace (s : Str) : Str :=
  if s.head? = some 32 then s else 32 :: s

/-- Write a byte string into a zero-initialised fixed-width buffer, keeping at
most `w - 1` bytes so a terminating null always remains
(the `len = bytes.len().min(width - 1); buf[..len].copy_from_slice(..)`
pattern of `pack_rkaf`). -/
def encodeFixed (w : Nat) (s : Str) : Str :=
  s.take (w - 1) ++ List.replicate (w - min s.length (w - 1)) 0

/-- Decode a fixed-width buffer up to its first null byte
(`CStr::from_bytes_until_nul`); `none` when no null byte is present. -/
def bytesUntilNul : Str → Option Str
  | [] => none
  | b :: rest => if b = 0 then some [] else (bytesUntilNul rest).map (b :: ·)

/-! ### Text helpers: hexadecimal rendering and parsing, line splitting -/

/-- Lowercase hex digit for a value `< 16` (as in Rust `{:x}` formatting). -/
def hexDigit (n : Nat) : Nat := if n < 10 then 48 + n else 87 + n

/-- The 8-hex-digit rendering of a `u32` produced by `{:#010x}` formatting in
`unpack_rkafp` (without its `0x` prefix). -/
def hex8 (v : Nat) : Str :=
  [hexDigit (v / 16 ^ 7 % 16), hexDigit (v / 16 ^ 6 % 16),
   hexDigit (v / 16 ^ 5 % 16), hexDigit (v / 16 ^ 4 % 16),
   hexDigit (v / 16 ^ 3 % 16), hexDigit (v / 16 ^ 2 % 16),
   hexDigit (v / 16 % 16), hexDigit (v % 16)]

/-- A `{:#010x}`-formatted `u32` field: `0x` followed by 8 hex digits. -/
def hex0x (v : Nat) : Str := 48 :: 120 :: hex8 v

/-- Is the byte an ASCII hex digit? -/
def isHexB (b : Nat) : Bool :=
  (48 ≤ b && b ≤ 57) || (97 ≤ b && b ≤ 102) || (65 ≤ b && b ≤ 70)

/-- Value of an ASCII hex digit byte. -/
def hexVal (b : Nat) : Nat :=
  if b ≤ 57 then b - 48 else if b ≤ 70 then b - 55 else b - 87

/-- Accumulating hex-digit parser: `none` on a non-digit byte. -/
def parseHexDigits (acc : Nat) : Str → Option Nat
  | [] => some acc
  | b :: rest => if isHexB b then parseHexDigits (acc * 16 + hexVal b) rest else none

/-- Strip every leading `"0x"` occurrence (`str::trim_start_matches("0x")`
removes the pattern repeatedly). -/
def strip0x : Str → Str
  | 48 :: 120 :: rest => strip0x rest
  | s => s

/-- `u32::from_str_radix(s, 16)`: an optional leading `+`, then a non-empty
run of hex digits, with the result required to fit in a `u32`. -/
def fromStrRadix16 (s : Str) : Option Nat :=
  let t := if s.head? = some 43 then s.tail else s
  if t = [] then none
  else
    match parseHexDigits 0 t with
    | some v => if v < 2 ^ 32 then some v else none
    | none => none

/-- The hex-field parser of `parse_partition_metadata`:
`u32::from_str_radix(field.trim_start_matches("0x"), 16)`. -/
def parseHexU32 (s : Str) : Option Nat := fromStrRadix16 (strip0x s)

/-- Is the byte ASCII whitespace (the characters `str::trim` and
`split_whitespace` treat as whitespace, restricted to ASCII)? -/
def isWsB (b : Nat) : Bool :=
  b = 32 || b = 9 || b = 10 || b = 11 || b = 12 || b = 13

/-- `str::trim` on a byte string. -/
def trimB (s : Str) : Str :=
  ((s.dropWhile (isWsB ·)).reverse.dropWhile (isWsB ·)).reverse

/-- `str::split(sep)` on a byte string: split at every occurrence of the
separator byte (empty pieces kept). -/
def splitByte (sep : Nat) : Str → List Str
  | [] => [[]]
  | b :: rest =>
    let r := splitByte sep rest
    if b = sep then [] :: r
    else match r with
      | [] => [[b]]
      | p :: ps => (b :: p) :: ps

/-- `str::split_whitespace`: maximal runs of non-whitespace bytes. -/
def splitWs : Str → List Str
  | [] => []
  | b :: rest =>
    let r := splitWs rest
    if isWsB b then r
    else match rest.head? with
      | some c => if isWsB c then [b] :: r
                  else match r with
                    | [] => [[b]]
                    | p :: ps => (b :: p) :: ps
      | none => [[b]]

/-- Association-list lookup keyed by byte strings (models `HashMap::get`). -/
def alookup {α : Type} : List (Str × α) → Str → Option α
  | [], _ => none
  | (k, v) :: rest, key => if k = key then some v else alookup rest key

/-! ### Binary layout (`lib.rs`)

`UpdatePart` and `UpdateHeader` are `repr(C, packed)` structs overlaid on raw
bytes; multi-byte integers are little-endian.  Field byte offsets:
`UpdatePart` (112 bytes): name 0, full_path 32, flash_size 92, part_offset 96,
flash_offset 100, padded_size 104, part_byte_count 108.
`UpdateHeader` (2048 bytes): magic 0, length 4, model 8, id 42,
manufacturer 72, unknown1 128, version 132, num_parts 136, parts 140,
reserved 1932. -/

/-- One partition descriptor (`UpdatePart` in `lib.rs`). -/
structure UpdatePart where
  name : Str
  fullPath : Str
  flashSize : Nat
  partOffset : Nat
  flashOffset : Nat
  paddedSize : Nat
  partByteCount : Nat
deriving DecidableEq, Repr

/-- `UpdatePart::default()`: all-zero buffers and fields. -/
def UpdatePart.default : UpdatePart :=
  ⟨List.replicate 32 0, List.replicate 60 0, 0, 0, 0, 0, 0⟩

/-- The partition-table container header (`UpdateHeader` in `lib.rs`). -/
structure UpdateHeader where
  magic : Str
  length : Nat
  model : Str
  id : Str
  manufacturer : Str
  unknown1 : Nat
  version : Nat
  numParts : Nat
  parts : List UpdatePart
  reserved : Str
deriving DecidableEq, Repr

/-- `UpdateHeader::default()`. -/
def UpdateHeader.default : UpdateHeader :=
  ⟨List.replicate 4 0, 0, List.replicate 34 0, List.replicate 30 0,
   List.replicate 56 0, 0, 0, 0, List.replicate 16 UpdatePart.default,
   List.replicate 116 0⟩

/-- Raw bytes of an `UpdatePart` (its `repr(C, packed)` memory image). -/
def partToBytes (p : UpdatePart) : Str :=
  p.name ++ p.fullPath ++ u32le p.flashSize ++ u32le p.partOffset ++
    u32le p.flashOffset ++ u32le p.paddedSize ++ u32le p.partByteCount

/-- Read an `UpdatePart` from a 112-byte buffer. -/
def partFromBytes (b : Str) : UpdatePart :=
  ⟨b.take 32, (b.drop 32).take 60, u32leAt b 92, u32leAt b 96, u32leAt b 100,
   u32leAt b 104, u32leAt b 108⟩

/-- Raw bytes of an `UpdateHeader` (`UpdateHeader::to_bytes`): the
`repr(C, packed)` memory image, 2048 bytes for a well-formed header. -/
def headerToBytes (h : UpdateHeader) : Str :=
  h.magic ++ u32le h.length ++ h.model ++ h.id ++ h.manufacturer ++
    u32le h.unknown1 ++ u32le h.version ++ u32le h.numParts ++
    (h.parts.map partToBytes).flatten ++ h.reserved

/-- Read an `UpdateHeader` from a (≥ 2048-byte) buffer
(`UpdateHeader::from_bytes`). -/
def headerFromBytes (b : Str) : UpdateHeader :=
  ⟨b.take 4, u32leAt b 4, (b.drop 8).take 34, (b.drop 42).take 30,
   (b.drop 72).take 56, u32leAt b 128, u32leAt b 132, u32leAt b 136,
   (List.range 16).map (fun i => partFromBytes ((b.drop (140 + 112 * i)).take 112)),
   (b.drop 1932).take 116⟩

/-- `size_of::<UpdateHeader>()`: 2048 bytes. -/
def headerSize : Nat := 2048

/-- Well-formedness of an `UpdatePart` as an in-memory value: buffers have
their exact widths and numeric fields fit in `u32`. -/
def wfPart (p : UpdatePart) : Prop :=
  p.name.length = 32 ∧ p.fullPath.length = 60 ∧ p.flashSize < 2 ^ 32 ∧
    p.partOffset < 2 ^ 32 ∧ p.flashOffset < 2 ^ 32 ∧ p.paddedSize < 2 ^ 32 ∧
    p.partByteCount < 2 ^ 32

instance (p : UpdatePart) : Decidable (wfPart p) := by
  unfold wfPart; infer_instance

/-- Well-formedness of an `UpdateHeader` as an in-memory value. -/
def wfHeader (h : UpdateHeader) : Prop :=
  h.magic.length = 4 ∧ h.length < 2 ^ 32 ∧ h.model.length = 34 ∧
    h.id.length = 30 ∧ h.manufacturer.length = 56 ∧ h.unknown1 < 2 ^ 32 ∧
    h.version < 2 ^ 32 ∧ h.numParts < 2 ^ 32 ∧ h.parts.length = 16 ∧
    (∀ p ∈ h.parts, wfPart p) ∧ h.reserved.length = 116

instance (h : UpdateHeader) : Decidable (wfHeader h) := by
  unfold wfHeader; infer_instance

/-! ### Codec — unpack (`unpack.rs`) -/

/-- The chunked copy loop of `extract_file`: read up to 16 KiB at a time from
position `pos`, append to the output, and fail with the truncation error when
a read comes back short. -/
def extractLoop (file : Str) (pos remaining : Nat) (acc : Str) : Except String Str :=
  if h : remaining = 0 then .ok acc
  else
    let readLen := min remaining 16384
    let readBytes := min readLen (file.length - pos)
    if readBytes ≠ readLen then .error "Insufficient length in container image file"
    else extractLoop file (pos + readLen) (remaining - readLen) (acc ++ (file.drop pos).take readLen)
termination_by remaining
decreasing_by
  have : 0 < min remaining 16384 := by
    have : 0 < remaining := Nat.pos_of_ne_zero h
    omega
  omega

/-- `extract_file` in `unpack.rs`: stream-copy exactly `len` bytes starting at
`offset` out of the container; a short read is the structured
`TruncatedContainer`-style error. -/
def extract_file (file : Str) (offset len : Nat) : Except String Str :=
  extractLoop file offset len []

/-- One metadata-manifest line as written by `unpack_rkafp`:
`name,full_path,flash_size,flash_offset,part_offset,padded_size,byte_count`
with every numeric field `{:#010x}`-formatted. -/
def metaLine (name fullPath : Str) (p : UpdatePart) : Str :=
  name ++ 44 :: fullPath ++ 44 :: hex0x p.flashSize ++ 44 :: hex0x p.flashOffset ++
    44 :: hex0x p.partOffset ++ 44 :: hex0x p.paddedSize ++ 44 :: hex0x p.partByteCount

/-- The per-partition loop of `unpack_rkafp`, over the first `num_parts`
entries: entries whose `full_path` has no null terminator are silently
skipped (`if let Ok`), `SELF` / `RESERVED` sentinels are skipped, every other
entry emits one metadata line and one extracted file. -/
def unpackLoop (file : Str) : List UpdatePart → Option (Except String (List Str × List (Str × Str)))
  | [] => some (.ok ([], []))
  | part :: rest =>
    match bytesUntilNul part.fullPath with
    | none => unpackLoop file rest
    | some p =>
      if p = asc "SELF" ∨ p = asc "RESERVED" then unpackLoop file rest
      else
        let line := metaLine ((bytesUntilNul part.name).getD []) p part
        match extract_file file part.partOffset part.partByteCount with
        | .error e => some (.error e)
        | .ok d =>
          match unpackLoop file rest with
          | some (.ok (ls, out)) => some (.ok (line :: ls, (p, d) :: out))
          | r => r

/-- `unpack_rkafp`: read the fixed-size header, check the magic, then run the
partition loop.  The result is the pair (metadata-manifest lines, extracted
files keyed by decoded `full_path`).  A header declaring more than 16 parts
drives `header.parts[i]` out of bounds at `i = 16` (a panic, `none`) unless a
structured error fires on one of the first 16 entries. -/
def unpack_rkafp (file : Str) : Option (Except String (List Str × List (Str × Str))) :=
  if file.length < headerSize then some (.error "failed to fill whole buffer")
  else
    let header := headerFromBytes (file.take headerSize)
    if header.magic ≠ asc "RKAF" then some (.error "Invalid header magic id")
    else if header.numParts ≤ 16 then unpackLoop file (header.parts.take header.numParts)
    else
      match unpackLoop file header.parts with
      | some (.error e) => some (.error e)
      | _ => none

/-- Gregorian leap year. -/
def isLeap (y : Nat) : Bool := (y % 4 = 0 && y % 100 ≠ 0) || y % 400 = 0

/-- Days in a month (for `NaiveDate::from_ymd_opt` validity). -/
def daysInMonth (y m : Nat) : Nat :=
  if m = 2 then (if isLeap y then 29 else 28)
  else if m = 4 ∨ m = 6 ∨ m = 9 ∨ m = 11 then 30
  else 31

/-- `unpack_rkfw`: parse the outer-container compact header and carve out the
`BOOT` blob and the embedded partition-table payload.  An out-of-range
declared region is an out-of-bounds slice (panic, `none`); a wrong magic on
the embedded payload is the literal `panic!` in the source (`none`).  An
invalid packed date or time is a structured error.  Reading the fixed header
fields of a buffer shorter than 0x29 bytes is itself an out-of-bounds index
(`none`). -/
def unpack_rkfw (buf : Str) : Option (Except String (List (Str × Str))) :=
  if buf.length < 0x29 then none
  else
    let year := buf.getD 0x0e 0 + 256 * buf.getD 0x0f 0
    let month := buf.getD 0x10 0
    let day := buf.getD 0x11 0
    let hour := buf.getD 0x12 0
    let minute := buf.getD 0x13 0
    let second := buf.getD 0x14 0
    if ¬ (1 ≤ month ∧ month ≤ 12 ∧ 1 ≤ day ∧ day ≤ daysInMonth year month) then
      some (.error "Invalid date")
    else if ¬ (hour < 24 ∧ minute < 60 ∧ second < 60) then
      some (.error "Invalid time")
    else
      let ioff := u32leAt buf 0x19
      let isz := u32leAt buf 0x1d
      if buf.length < ioff + isz then none
      else
        let boot := (buf.drop ioff).take isz
        let uoff := u32leAt buf 0x21
        let usz := u32leAt buf 0x25
        if buf.length < uoff + 4 then none
        else if (buf.drop uoff).take 4 ≠ asc "RKAF" then none
        else if buf.length < uoff + usz then none
        else some (.ok [(asc "BOOT", boot),
                        (asc "embedded-update.img", (buf.drop uoff).take usz)])

/-- `unpack_file`: classify the container by its leading 4-byte signature and
dispatch (the partition-table branch re-reads the same file, hence the same
bytes).  The outer-container branch produces no metadata lines. -/
def unpack_file (buf : Str) : Option (Except String (List Str × List (Str × Str))) :=
  if buf.length < 4 then none
  else if buf.take 4 = asc "RKAF" then unpack_rkafp buf
  else if buf.take 4 = asc "RKFW" then
    (unpack_rkfw buf).map (Except.map (fun out => ([], out)))
  else some (.error "Unknown signature")

/-! ### Codec — pack (`pack.rs`) -/

/-- One partition's geometry as recorded in `partition-metadata.txt`
(`PartitionMetadata` in `pack.rs`). -/
structure PartitionMetadata where
  flashSize : Nat
  flashOffset : Nat
  paddedSize : Nat
deriving DecidableEq, Repr

/-- The line loop of `parse_partition_metadata`: trim, skip blank lines, split
on commas; lines with at least 7 fields contribute `name ↦ (fields 2, 3, 5
parsed as hex `u32`)` to the map (later lines overwrite earlier ones — the
accumulator is consed in front and looked up first-match); a malformed hex
field aborts with a structured error. -/
def parseMetaLines (acc : List (Str × PartitionMetadata)) :
    List Str → Except String (List (Str × PartitionMetadata))
  | [] => .ok acc
  | line :: rest =>
    let t := trimB line
    if t = [] then parseMetaLines acc rest
    else
      let ps := splitByte 44 t
      if 7 ≤ ps.length then
        match parseHexU32 (ps.getD 2 []), parseHexU32 (ps.getD 3 []),
              parseHexU32 (ps.getD 5 []) with
        | some a, some b, some c =>
          parseMetaLines ((ps.getD 0 [], ⟨a, b, c⟩) :: acc) rest
        | _, _, _ => .error "invalid digit found in string"
      else parseMetaLines acc rest

/-- `parse_partition_metadata` over the manifest's lines (a missing manifest
file is modelled by the empty line list, which yields the empty map exactly as
the `Err(_) => return Ok(metadata_map)` branch does). -/
def parse_partition_metadata (lines : List Str) :
    Except String (List (Str × PartitionMetadata)) :=
  parseMetaLines [] lines

/-- The package-file parse loop of `pack_rkaf`: trim, skip blanks and
`#`-comments, split on whitespace and keep `(parts[0], parts[1])` for lines
with at least two fields. -/
def parsePackageFile (lines : List Str) : List (Str × Str) :=
  lines.filterMap (fun line =>
    let t := trimB line
    if t = [] ∨ t.head? = some 35 then none
    else
      let ps := splitWs t
      if 2 ≤ ps.length then some (ps.getD 0 [], ps.getD 1 []) else none)

/-- The `parameter.txt` scan of `pack_rkaf`: the first line starting with
`MACHINE_ID:` yields `line.split(':').nth(1).unwrap_or("").trim()` (a missing
file is modelled by the empty line list). -/
def parseMachineId : List Str → Str
  | [] => []
  | line :: rest =>
    if line.take 11 = asc "MACHINE_ID:" then trimB ((splitByte 58 line).getD 1 [])
    else parseMachineId rest

/-- Mutable state of `pack_rkaf`'s layout loop: `file_data_map`
(path ↦ (bytes, container offset, padded size)), `file_data_list`
(first-occurrence order), the write cursor, and the partition array. -/
structure PackSt where
  fileMap : List (Str × (Str × Nat × Nat))
  order : List (Str × Str)
  cursor : Nat
  parts : List UpdatePart
deriving DecidableEq, Repr

/-- The partition entry built for one manifest line (name / path encoded into
their fixed buffers, flash geometry from the metadata map, container offset
and byte count from the layout). -/
def mkPart (name path : Str) (m : PartitionMetadata) (off size : Nat) : UpdatePart :=
  ⟨encodeFixed 32 name, encodeFixed 60 path, m.flashSize, off, m.flashOffset,
   m.paddedSize, size⟩

/-- The load-or-reuse step of the layout loop: an already-loaded path reuses
its recorded offset; a fresh path is read from the input directory, its
padded size computed by `u32` sector rounding, and the cursor advanced. -/
def packLoad (fs : List (Str × Str)) (path : Str) (st : PackSt) :
    Except String (Nat × Nat × PackSt) :=
  match alookup st.fileMap path with
  | some (d, off, _) => .ok (off, d.length % 2 ^ 32, st)
  | none =>
    match alookup fs path with
    | none => .error "Cannot open file"
    | some d =>
      let size := d.length % 2 ^ 32
      let pad := (size + 2048 - 1) % 2 ^ 32 / 2048 * 2048
      let off := st.cursor % 2 ^ 32
      .ok (off, size,
        ⟨(path, (d, off, pad)) :: st.fileMap, st.order ++ [(path, d)],
         st.cursor + pad, st.parts⟩)

/-- The per-manifest-entry loop of `pack_rkaf`: load or reuse the file, fetch
the partition's geometry (missing geometry is a structured error), and store
the built entry at index `i` of the fixed 16-element partition array — an
unchecked write that is out of bounds (panic, `none`) from the 17th entry
on. -/
def packLoop (fs : List (Str × Str)) (meta : List (Str × PartitionMetadata)) :
    List (Str × Str) → Nat → PackSt → Option (Except String PackSt)
  | [], _, st => some (.ok st)
  | (name, path) :: rest, i, st =>
    match packLoad fs path st with
    | .error e => some (.error e)
    | .ok (off, size, st') =>
      match alookup meta name with
      | none => some (.error "Missing partition metadata")
      | some m =>
        if i < 16 then
          packLoop fs meta rest (i + 1)
            ⟨st'.fileMap, st'.order, st'.cursor,
             st'.parts.set i (mkPart name path m off size)⟩
        else none

/-- The body-writing loop of `pack_rkaf`: each distinct loaded file in
first-occurrence order, followed by zero padding up to its padded size.  The
`unwrap` on the map lookup and the `usize` underflow `padded - len` are
panics (`none`). -/
def bodyBytes (fm : List (Str × (Str × Nat × Nat))) :
    List (Str × Str) → Option Str
  | [] => some []
  | (path, d) :: rest =>
    match alookup fm path with
    | none => none
    | some (_, _, pad) =>
      if d.length ≤ pad then
        (bodyBytes fm rest).map (fun tail => d ++ List.replicate (pad - d.length) 0 ++ tail)
      else none

/-- `pack_rkaf`: inputs are the `package-file` lines, the
`partition-metadata.txt` lines, the `parameter.txt` lines (empty list when the
file is absent), the input directory contents (path ↦ bytes), and the model /
manufacturer strings.  Output is the complete container byte string,
including the trailing little-endian checksum computed over every preceding
byte of the written file. -/
def pack_rkaf (packageLines metadataLines paramLines : List Str)
    (fs : List (Str × Str)) (model manufacturer : Str) :
    Option (Except String Str) :=
  let fileList := parsePackageFile packageLines
  if fileList = [] then some (.error "No files found in package-file")
  else
    let machineId := parseMachineId paramLines
    let h0 := UpdateHeader.default
    let h1 : UpdateHeader :=
      { h0 with
        magic := asc "RKAF",
        model := encodeFixed 34 (addSpace model),
        manufacturer := encodeFixed 56 (addSpace manufacturer),
        id := if machineId = [] then h0.id else encodeFixed 30 (32 :: machineId),
        numParts := fileList.length % 2 ^ 32,
        version := 0x01000000 }
    match parse_partition_metadata metadataLines with
    | .error e => some (.error e)
    | .ok meta =>
      if meta = [] then some (.error "Missing partition metadata")
      else
        let st0 : PackSt := ⟨[], [], (headerSize + 2048 - 1) / 2048 * 2048, h1.parts⟩
        match packLoop fs meta fileList 0 st0 with
        | none => none
        | some (.error e) => some (.error e)
        | some (.ok st) =>
          let h2 : UpdateHeader :=
            { h1 with parts := st.parts, length := st.cursor % 2 ^ 32 }
          match bodyBytes st.fileMap st.order with
          | none => none
          | some body =>
            let content := headerToBytes h2 ++ List.replicate (2048 - headerSize) 0 ++ body
            some (.ok (content ++ u32le (rkcrc32 0 content)))

/-! ### Codec — pack, outer container (`pack_rkfw` in `pack.rs`) -/

/-- ASCII uppercase conversion (`str::to_uppercase` restricted to ASCII,
which is all the chip table contains). -/
def toUpperB (s : Str) : Str :=
  s.map (fun b => if 97 ≤ b ∧ b ≤ 122 then b - 32 else b)

/-- `chip_name_to_code` in `pack.rs` (case-insensitive fixed table). -/
def chip_name_to_code (chip : Str) : Except String Nat :=
  let c := toUpperB chip
  if c = asc "RK29XX" ∨ c = asc "RK29" then .ok 0x50
  else if c = asc "RK30XX" ∨ c = asc "RK30" then .ok 0x60
  else if c = asc "RK31XX" ∨ c = asc "RK31" then .ok 0x70
  else if c = asc "RK32XX" ∨ c = asc "RK32" then .ok 0x80
  else if c = asc "RK3368" then .ok 0x41
  else if c = asc "RK3326" then .ok 0x36
  else if c = asc "RK3562" then .ok 0x32
  else if c = asc "RK3566" then .ok 0x38
  else if c = asc "PX30" then .ok 0x30
  else .error "Unsupported chip family"

/-- Accumulating decimal-digit parser (`none` on a non-digit byte). -/
def parseDecDigits (acc : Nat) : Str → Option Nat
  | [] => some acc
  | b :: rest =>
    if 48 ≤ b ∧ b ≤ 57 then parseDecDigits (acc * 10 + (b - 48)) rest else none

/-- `str::parse` for an unsigned integer type with exclusive upper bound
`bound`: optional leading `+`, then a non-empty digit run whose value fits. -/
def parseDec (bound : Nat) (s : Str) : Option Nat :=
  let t := match s with
    | 43 :: rest => rest
    | _ => s
  match t with
  | [] => none
  | _ =>
    match parseDecDigits 0 t with
    | some v => if v < bound then some v else none
    | none => none

/-- Strip every leading `"0X"` occurrence. -/
def strip0X : Str → Str
  | 48 :: 88 :: rest => strip0X rest
  | s => s

/-- Proleptic-Gregorian calendar fields `(year, month, day)` from a
non-negative count of days since 1970-01-01 (the civil-from-days algorithm;
models `chrono`'s timestamp-to-date conversion used by `pack_rkfw`). -/
def civilFromDays (z : Nat) : Nat × Nat × Nat :=
  let w := z + 719468
  let era := w / 146097
  let doe := w % 146097
  let yoe := (doe - doe / 1460 + doe / 36524 - doe / 146097) / 365
  let y := yoe + era * 400
  let doy := doe - (365 * yoe + yoe / 4 - yoe / 100)
  let mp := (5 * doy + 2) / 153
  let d := doy - (153 * mp + 2) / 5 + 1
  let m := if mp < 10 then mp + 3 else mp - 9
  (if m ≤ 2 then y + 1 else y, m, d)

/-- `{:x}` rendering of an MD5 digest value: each byte as two lowercase hex
digits. -/
def digestHex (digest : Str) : Str :=
  digest.flatMap (fun b => [hexDigit (b / 16 % 16), hexDigit (b % 16)])

/-- `pack_rkfw`: build the 0x66-byte outer header, concatenate
header ++ BOOT ++ embedded container, and append the hex text of an MD5
digest of that concatenation.  The digest itself comes from the external
`md5` crate, so it is a parameter `md5fn` of the model; everything else is
translated from the source.  `chrono`'s timestamp conversion is modelled for
non-negative timestamps up to its documented maximum; the container claims
only exercise that range. -/
def pack_rkfw (bootData updateData : Str) (chip version : Str) (ts : Int)
    (codeHex : Str) (md5fn : Str → Str) : Except String Str :=
  match fromStrRadix16 (strip0X (strip0x codeHex)) with
  | none => .error "Invalid hex value for code field"
  | some code =>
    let vparts := splitByte 46 version
    if vparts.length ≠ 3 then .error "Version must be in format: major.minor.build"
    else
      match parseDec 256 (vparts.getD 0 []) with
      | none => .error "Invalid major version"
      | some major =>
        match parseDec 256 (vparts.getD 1 []) with
        | none => .error "Invalid minor version"
        | some minor =>
          match parseDec 65536 (vparts.getD 2 []) with
          | none => .error "Invalid build number"
          | some build =>
            match chip_name_to_code chip with
            | .error e => .error e
            | .ok chipCode =>
              if updateData.length < 4 ∨ updateData.take 4 ≠ asc "RKAF" then
                .error "embedded-update.img must be a valid RKAF file"
              else if ts < 0 ∨ 8210266876800 ≤ ts then .error "Invalid timestamp"
              else
                let n := ts.toNat
                let ymd := civilFromDays (n / 86400)
                let year := ymd.1 % 65536
                let month := ymd.2.1
                let day := ymd.2.2
                let hour := n % 86400 / 3600
                let minute := n % 3600 / 60
                let second := n % 60
                let bootSize := bootData.length % 2 ^ 32
                let updateSize := updateData.length % 2 ^ 32
                let chipDigits := chip.filter (fun b => 48 ≤ b ∧ b ≤ 57)
                let header : Str :=
                  asc "RKFW" ++ [0x66, 0, build % 256, build / 256 % 256, minor, major] ++
                    u32le code ++ [year % 256, year / 256 % 256, month, day, hour, minute, second] ++
                    [chipCode] ++
                    (if 3 ≤ chipDigits.length then
                       [chipDigits.getD 2 0, chipDigits.getD 1 0, chipDigits.getD 0 0]
                     else [0, 0, 0]) ++
                    u32le 0x66 ++ u32le bootSize ++
                    u32le ((0x66 + bootSize) % 2 ^ 32) ++ u32le updateSize ++
                    [0, 0, 0, 0, 1] ++ List.replicate (0x66 - 0x2e) 0
                let fileData := header ++ bootData ++ updateData
                .ok (fileData ++ digestHex (md5fn fileData))

/-! ### Specification-side descriptions of the pack layout (used in proofs) -/

/-- The padded size `pack_rkaf` computes for a loaded file: its byte length
truncated to `u32`, sector-rounded with `u32` wrapping arithmetic. -/
def padOf (d : Str) : Nat := (d.length % 2 ^ 32 + 2048 - 1) % 2 ^ 32 / 2048 * 2048

/-- Total padded size of a layout order. -/
def sumPads (order : List (Str × Str)) : Nat := (order.map (fun e => padOf e.2)).sum

/-- An upper bound for the cursor advance over a list of manifest entries. -/
def entPads (fs : List (Str × Str)) (entries : List (Str × Str)) : Nat :=
  (entries.map (fun e => padOf ((alookup fs e.2).getD []))).sum

/-- Coherence of `pack_rkaf`'s layout state: the cursor is the header region
plus all padded sizes laid out so far; layout order keys are distinct; every
laid-out file's bytes come from the input directory; and the file map holds
exactly the laid-out files, each recorded at the offset obtained by summing
the padded sizes before it. -/
def layoutCoh (fs : List (Str × Str)) (st : PackSt) : Prop :=
  st.cursor = 2048 + sumPads st.order ∧
  (st.order.map Prod.fst).Nodup ∧
  (∀ p d, (p, d) ∈ st.order → alookup fs p = some d) ∧
  (∀ p d off pad, alookup st.fileMap p = some (d, off, pad) →
     pad = padOf d ∧ ∃ k, k < st.order.length ∧ st.order.getD k ([], []) = (p, d) ∧
       off = 2048 + sumPads (st.order.take k)) ∧
  (∀ k, k < st.order.length →
     alookup st.fileMap (st.order.getD k ([], [])).1 =
       some ((st.order.getD k ([], [])).2, 2048 + sumPads (st.order.take k),
             padOf (st.order.getD k ([], [])).2))

/-- The header value `pack_rkaf` serializes, in terms of the final layout
state (equal, field by field, to the `h2` built inside `pack_rkaf`). -/
def packHeader (nParts : Nat) (machineId model manufacturer : Str)
    (st : PackSt) : UpdateHeader :=
  { magic := asc "RKAF", length := st.cursor % 2 ^ 32,
    model := encodeFixed 34 (addSpace model),
    id := if machineId = [] then List.replicate 30 0
          else encodeFixed 30 (32 :: machineId),
    manufacturer := encodeFixed 56 (addSpace manufacturer),
    unknown1 := 0, version := 0x01000000, numParts := nParts % 2 ^ 32,
    parts := st.parts, reserved := List.replicate 116 0 }

/-- Well-formedness of one package-manifest entry (name, relative path) for
the pack/unpack round trip: the name is nonempty, free of whitespace, commas
and nulls, and fits its 32-byte buffer with the terminating null; the path is
free of commas and nulls, fits its 60-byte buffer, and is not one of the
`SELF` / `RESERVED` sentinels skipped by unpack; the input directory holds
the path and the metadata map holds the name's geometry. -/
def wfEntry (fs : List (Str × Str)) (meta : List (Str × PartitionMetadata))
    (e : Str × Str) : Prop :=
  e.1 ≠ [] ∧ e.1.length ≤ 31 ∧
    (∀ b ∈ e.1, isWsB b = false ∧ b ≠ 44 ∧ b ≠ 0) ∧
    e.2.length ≤ 59 ∧ (∀ b ∈ e.2, b ≠ 44 ∧ b ≠ 0) ∧
    e.2 ≠ asc "SELF" ∧ e.2 ≠ asc "RESERVED" ∧
    alookup fs e.2 ≠ none ∧ alookup meta e.1 ≠ none

instance (fs : List (Str × Str)) (meta : List (Str × PartitionMetadata))
    (e : Str × Str) : Decidable (wfEntry fs meta e) := by
  unfold wfEntry; infer_instance

/-! ### Concrete inputs used by counterexamples and witnesses -/

/-- A minimal valid partition-table container: an all-defaults header with the
`RKAF` magic, zero partitions and a correct declared length, followed by its
correct trailing checksum. -/
def minimalHeader : UpdateHeader :=
  { UpdateHeader.default with magic := asc "RKAF", length := 2048 }

/-- The byte string of the minimal valid container (2052 bytes). -/
def minimalRkaf : Str :=
  headerToBytes minimalHeader ++ u32le (rkcrc32 0 (headerToBytes minimalHeader))

/-- Validity of a partition-table container byte string, per the data model:
correct magic, partition count within the fixed table, declared payload
length equal to the file size minus the 4-byte checksum trailer, and a
trailing checksum that covers every preceding byte. -/
def validContainer (b : Str) : Prop :=
  headerSize + 4 ≤ b.length ∧
    (headerFromBytes (b.take headerSize)).magic = asc "RKAF" ∧
    (headerFromBytes (b.take headerSize)).numParts ≤ 16 ∧
    (headerFromBytes (b.take headerSize)).length = b.length - 4 ∧
    b.drop (b.length - 4) = u32le (rkcrc32 0 (b.take (b.length - 4)))

instance (b : Str) : Decidable (validContainer b) := by
  unfold validContainer; infer_instance

/-- A 48-byte outer container whose packed date (month 1, day 1) is valid,
whose BOOT region is the empty region at offset 0, and whose embedded-payload
region points at offset 0 — where the bytes read `RKFW`, not `RKAF`. -/
def rkfwBadMagic : Str :=
  asc "RKFW" ++ List.replicate 12 0 ++ [1, 1] ++ List.replicate 30 0

/-- A 48-byte outer container identical to `rkfwBadMagic` except that its
declared BOOT region is 65535 bytes long — far beyond the end of the file. -/
def rkfwTruncated : Str :=
  asc "RKFW" ++ List.replicate 12 0 ++ [1, 1] ++ List.replicate 11 0 ++
    [255, 255] ++ List.replicate 17 0

/-- A partition entry whose `full_path` buffer holds 60 non-null bytes — no
null terminator anywhere in the fixed buffer. -/
def noNulPart : UpdatePart :=
  { UpdatePart.default with
    name := encodeFixed 32 (asc "x"), fullPath := List.replicate 60 65 }

/-- A header declaring one partition, `noNulPart`. -/
def noNulHeader : UpdateHeader :=
  { UpdateHeader.default with
    magic := asc "RKAF", length := 2048, numParts := 1,
    parts := noNulPart :: List.replicate 15 UpdatePart.default }

/-- A valid partition-table container whose single entry's `full_path` has no
null terminator. -/
def noNulContainer : Str :=
  headerToBytes noNulHeader ++ u32le (rkcrc32 0 (headerToBytes noNulHeader))

/-- A `SELF` sentinel entry. -/
def selfPart : UpdatePart :=
  { UpdatePart.default with fullPath := encodeFixed 60 (asc "SELF") }

/-- A real partition entry: `n` / `p`, 2 bytes at container offset 2048. -/
def realPart : UpdatePart :=
  { UpdatePart.default with
    name := encodeFixed 32 (asc "n"), fullPath := encodeFixed 60 (asc "p"),
    partOffset := 2048, partByteCount := 2 }

/-- A header declaring a `SELF` sentinel entry followed by one real
partition. -/
def selfSkipHeader : UpdateHeader :=
  { UpdateHeader.default with
    magic := asc "RKAF", length := 2046, numParts := 2,
    parts := selfPart :: realPart :: List.replicate 14 UpdatePart.default }

/-- A container (2050 bytes) with a `SELF` entry and one extractable entry. -/
def selfSkipContainer : Str := headerToBytes selfSkipHeader ++ [9, 9]

/-- A one-entry package manifest: partition `boot` from `boot.img`. -/
def wPkg : List Str := [asc "boot boot.img"]

/-- A geometry manifest line for partition `boot`. -/
def wMeta : List Str :=
  [asc "boot,boot.img,0x00001000,0x00002000,0x00000800,0x00000800,0x00000003"]

/-- The parse of `wMeta`. -/
def wMetaParsed : List (Str × PartitionMetadata) :=
  [(asc "boot", ⟨0x1000, 0x2000, 0x800⟩)]

/-- An input directory holding one 3-byte file `boot.img`. -/
def wFs : List (Str × Str) := [(asc "boot.img", [1, 2, 3])]

/-- A two-name package manifest in which both partitions (`boot`, `alt`) name
the same underlying file `boot.img`. -/
def aliasPkg : List Str := [asc "boot boot.img", asc "alt boot.img"]

/-- Geometry for `boot` and `alt` with different padded-size fields. -/
def aliasMeta : List Str :=
  [asc "boot,boot.img,0x00001000,0x00002000,0x00000800,0x00000800,0x00000003",
   asc "alt,boot.img,0x00001000,0x00003000,0x00001000,0x00001000,0x00000003"]

/-- The parse of `aliasMeta`. -/
def aliasMetaParsed : List (Str × PartitionMetadata) :=
  [(asc "alt", ⟨0x1000, 0x3000, 0x1000⟩), (asc "boot", ⟨0x1000, 0x2000, 0x800⟩)]

/-- A 17-entry package manifest: names `n0` … `n??` (bytes `n` + 48+i), all
naming the same file `f`. -/
def bigPkg : List Str := (List.range 17).map (fun i => [110, 48 + i, 32, 102])

/-- Geometry lines for the 17 names of `bigPkg`. -/
def bigMeta : List Str :=
  (List.range 17).map (fun i => [110, 48 + i] ++ asc ",f,0x0,0x0,0x0,0x0,0x0")

/-- The parse of `bigMeta`. -/
def bigMetaParsed : List (Str × PartitionMetadata) :=
  ((List.range 17).map (fun i => ([110, 48 + i], PartitionMetadata.mk 0 0 0))).reverse

/-- The layout state after packing `aliasPkg` from `wFs`. -/
def aliasSt : PackSt :=
  ⟨[(asc "boot.img", ([1, 2, 3], 2048, 2048))], [(asc "boot.img", [1, 2, 3])], 4096,
   mkPart (asc "boot") (asc "boot.img") ⟨0x1000, 0x2000, 0x800⟩ 2048 3 ::
   mkPart (asc "alt") (asc "boot.img") ⟨0x1000, 0x3000, 0x1000⟩ 2048 3 ::
   List.replicate 14 UpdatePart.default⟩

/-- The packed body for `aliasPkg`: the 3 file bytes padded to one sector. -/
def aliasBody : Str := [1, 2, 3] ++ List.replicate 2045 0

/-- The 0x66-byte outer header built by `pack_rkfw`, as a function of the
resolved field values (same construction as in `pack_rkfw`, with the two
payload lengths abstracted). -/
def rkfwHeaderBytes (bootLen updateLen : Nat) (chip : Str) (ts : Int)
    (code major minor build chipCode : Nat) : Str :=
  asc "RKFW" ++ [0x66, 0, build % 256, build / 256 % 256, minor, major] ++
    u32le code ++
    [(civilFromDays (ts.toNat / 86400)).1 % 65536 % 256,
     (civilFromDays (ts.toNat / 86400)).1 % 65536 / 256 % 256,
     (civilFromDays (ts.toNat / 86400)).2.1,
     (civilFromDays (ts.toNat / 86400)).2.2,
     ts.toNat % 86400 / 3600, ts.toNat % 3600 / 60, ts.toNat % 60] ++
    [chipCode] ++
    (if 3 ≤ (chip.filter (fun b => 48 ≤ b ∧ b ≤ 57)).length then
       [(chip.filter (fun b => 48 ≤ b ∧ b ≤ 57)).getD 2 0,
        (chip.filter (fun b => 48 ≤ b ∧ b ≤ 57)).getD 1 0,
        (chip.filter (fun b => 48 ≤ b ∧ b ≤ 57)).getD 0 0]
     else [0, 0, 0]) ++
    u32le 0x66 ++ u32le (bootLen % 2 ^ 32) ++
    u32le ((0x66 + bootLen % 2 ^ 32) % 2 ^ 32) ++ u32le (updateLen % 2 ^ 32) ++
    [0, 0, 0, 0, 1] ++ List.replicate (0x66 - 0x2e) 0

/-- The concrete outer header for the C9 scenario: version 8.1.0, timestamp
1731031994 (2024-11-08 02:13:14), chip RK3566 (code 0x38, digits reversed),
code field 0x02000000, 100-byte BOOT at 0x66, 2052-byte embedded container at
0xca. -/
def c9hdr : Str :=
  [82, 75, 70, 87, 0x66, 0, 0, 0, 1, 8] ++ [0, 0, 0, 2] ++
    [232, 7, 11, 8, 2, 13, 14] ++ [0x38] ++ [54, 53, 51] ++
    [102, 0, 0, 0] ++ [100, 0, 0, 0] ++ [202, 0, 0, 0] ++ [4, 8, 0, 0] ++
    [0, 0, 0, 0, 1] ++ List.replicate 56 0

end Afptool

namespace Afptool

/-! ## Theorems -/

/-- C8: the RockChip checksum is the left fold of the step
`acc ↦ (acc << 8) ^^^ TABLE[((acc >> 24) ^^^ byte) % 256]` over the bytes
(with `u32` wrapping); the empty slice returns the accumulator unchanged; the
checksum is a pure function of the byte string; and checksumming a
concatenation folds the first slice's result through the second slice. -/
theorem c8_checksum_fold (acc : Nat) (bytes s1 s2 : List Nat) :
    rkcrc32 acc bytes =
      bytes.foldl
        (fun c b => Nat.xor ((c <<< 8) % 2 ^ 32)
          (RKCRC32_TABLE.getD (Nat.xor (c >>> 24) b % 256) 0)) acc ∧
    rkcrc32 acc [] = acc ∧
    rkcrc32 acc (s1 ++ s2) = rkcrc32 (rkcrc32 acc s1) s2 := by
  refine ⟨rfl, rfl, ?_⟩
  simp [rkcrc32, List.foldl_append]

/-! ### String-field lemmas -/

theorem bytesUntilNul_append (s t : Str) (h : 0 ∉ s) :
    bytesUntilNul (s ++ 0 :: t) = some s := by
  induction s with
  | nil => simp [bytesUntilNul]
  | cons b rest ih =>
    have hb : b ≠ 0 := by intro e; exact h (by simp [e])
    have hr : 0 ∉ rest := fun m => h (List.mem_cons_of_mem _ m)
    simp [bytesUntilNul, hb, ih hr]

theorem encodeFixed_of_lt (w : Nat) (s : Str) (h : s.length < w) :
    encodeFixed w s = s ++ 0 :: List.replicate (w - s.length - 1) 0 := by
  unfold encodeFixed
  have h1 : s.take (w - 1) = s := List.take_of_length_le (by omega)
  have h2 : min s.length (w - 1) = s.length := by omega
  rw [h1, h2]
  congr 1
  have h3 : w - s.length = (w - s.length - 1) + 1 := by omega
  conv_lhs => rw [h3]
  rw [List.replicate_succ]

theorem encodeFixed_decode (w : Nat) (s : Str) (h : s.length < w) (h0 : 0 ∉ s) :
    bytesUntilNul (encodeFixed w s) = some s := by
  rw [encodeFixed_of_lt w s h]
  exact bytesUntilNul_append s _ h0

theorem encodeFixed_length (w : Nat) (s : Str) (hw : 1 ≤ w) :
    (encodeFixed w s).length = w := by
  unfold encodeFixed
  simp [List.length_take, List.length_replicate]
  omega

/-- C3 (amended): for every null-free string whose space-prefixed form fits in
`width - 1` bytes, encoding into the fixed buffer and decoding returns the
original string with a single leading space added when none was present (in
particular a string of exactly `width - 2` characters with no leading space
succeeds).  The `width - 1` case of the original claim is settled by the
counterexample theorem: it is silently truncated, not rejected. -/
theorem c3_string_roundtrip (s : Str) (w : Nat) (h0 : 0 ∉ s)
    (hw : (addSpace s).length < w) :
    bytesUntilNul (encodeFixed w (addSpace s)) = some (addSpace s) ∧
    (s.head? ≠ some 32 → addSpace s = 32 :: s) ∧
    (s.head? = some 32 → addSpace s = s) := by
  have h0' : 0 ∉ addSpace s := by
    unfold addSpace
    split
    · exact h0
    · intro m
      rcases List.mem_cons.mp m with e | m'
      · omega
      · exact h0 m'
  refine ⟨encodeFixed_decode w _ hw h0', ?_, ?_⟩
  · intro hne
    unfold addSpace
    have hne' : ¬ (s.head? = some 32) := hne
    simp [hne']
  · intro he
    unfold addSpace
    simp [he]

/-- C3 witness: the string `"ab"` in a width-4 buffer round-trips to `" ab"`. -/
theorem c3_string_roundtrip_witness :
    bytesUntilNul (encodeFixed 4 (addSpace (asc "ab"))) = some (addSpace (asc "ab")) ∧
    ((asc "ab").head? ≠ some 32 → addSpace (asc "ab") = 32 :: asc "ab") ∧
    ((asc "ab").head? = some 32 → addSpace (asc "ab") = asc "ab") :=
  c3_string_roundtrip (asc "ab") 4 (by decide) (by decide)

/-- C3 counterexample: a 33-character null-free string in the 34-byte model
buffer (shorter than the buffer width, and exactly `width - 1` characters) is
not rejected — encoding succeeds and decodes to a silently truncated string,
not to the original with a leading space. -/
theorem c3_cex :
    bytesUntilNul (encodeFixed 34 (addSpace (List.replicate 33 97))) =
      some (32 :: List.replicate 32 97) ∧
    (32 :: List.replicate 32 97 : Str) ≠ 32 :: List.replicate 33 97 := by
  constructor
  · decide
  · decide

/-! ### Outer-container unpack: panics instead of structured errors -/

/-- C2 (amended): in the outer-container unpack path, when the embedded
payload's first 4 bytes do not match the partition-table magic the operation
does not return a structured error value at all — it terminates via the
literal `panic!` in `unpack_rkfw` (modelled as `none`), for every buffer that
reaches the magic check. -/
theorem c2_rkfw_bad_magic_panics (buf : Str)
    (hlen : ¬ buf.length < 0x29)
    (hdate : 1 ≤ buf.getD 0x10 0 ∧ buf.getD 0x10 0 ≤ 12 ∧ 1 ≤ buf.getD 0x11 0 ∧
      buf.getD 0x11 0 ≤ daysInMonth (buf.getD 0x0e 0 + 256 * buf.getD 0x0f 0) (buf.getD 0x10 0))
    (htime : buf.getD 0x12 0 < 24 ∧ buf.getD 0x13 0 < 60 ∧ buf.getD 0x14 0 < 60)
    (hboot : ¬ buf.length < u32leAt buf 0x19 + u32leAt buf 0x1d)
    (hu4 : ¬ buf.length < u32leAt buf 0x21 + 4)
    (hmag : (buf.drop (u32leAt buf 0x21)).take 4 ≠ asc "RKAF") :
    unpack_rkfw buf = none := by
  simp only [unpack_rkfw]
  rw [if_neg hlen, if_neg (not_not_intro hdate), if_neg (not_not_intro htime),
    if_neg hboot, if_neg hu4, if_pos hmag]

/-- C2 witness: a concrete buffer reaching the magic check with a wrong
embedded magic. -/
theorem c2_rkfw_bad_magic_panics_witness : unpack_rkfw rkfwBadMagic = none :=
  c2_rkfw_bad_magic_panics rkfwBadMagic (by decide) (by decide) (by decide)
    (by decide) (by decide) (by decide)

/-- C2 counterexample: on `rkfwBadMagic` — a well-dated outer container whose
embedded payload does not start with the partition-table magic — the unpack
operation yields no structured error value (the claimed
`InvalidEmbeddedContainer`): it panics, i.e. the whole operation evaluates to
`none` rather than to any `some (.error _)`. -/
theorem c2_cex : unpack_rkfw rkfwBadMagic = none := by rfl

/-! ### `extract_file` characterization -/

theorem extractLoop_zero (file : Str) (pos : Nat) (acc : Str) :
    extractLoop file pos 0 acc = .ok acc := by
  rw [extractLoop]
  simp

theorem extractLoop_step (file : Str) (pos remaining : Nat) (acc : Str)
    (h : remaining ≠ 0) :
    extractLoop file pos remaining acc =
      if min (min remaining 16384) (file.length - pos) ≠ min remaining 16384 then
        .error "Insufficient length in container image file"
      else
        extractLoop file (pos + min remaining 16384) (remaining - min remaining 16384)
          (acc ++ (file.drop pos).take (min remaining 16384)) := by
  conv_lhs => rw [extractLoop]
  simp only [dif_neg h]

theorem extractLoop_ok (file : Str) :
    ∀ remaining pos acc, pos + remaining ≤ file.length →
      extractLoop file pos remaining acc = .ok (acc ++ (file.drop pos).take remaining) := by
  intro remaining
  induction remaining using Nat.strong_induction_on with
  | _ remaining ih =>
    intro pos acc h
    by_cases hz : remaining = 0
    · subst hz
      simp [extractLoop_zero]
    · have hmin : 0 < min remaining 16384 := by omega
      rw [extractLoop_step file pos remaining acc hz]
      have hfull : min (min remaining 16384) (file.length - pos) = min remaining 16384 := by
        omega
      rw [if_neg (not_not_intro hfull)]
      rw [ih (remaining - min remaining 16384) (by omega) _ _ (by omega)]
      congr 1
      rw [List.append_assoc]
      congr 1
      have hd : file.drop (pos + min remaining 16384) =
          (file.drop pos).drop (min remaining 16384) := by
        rw [List.drop_drop]
      rw [hd, ← List.take_add]
      congr 1
      omega

theorem extractLoop_err (file : Str) :
    ∀ remaining pos acc, file.length < pos + remaining → 0 < remaining →
      extractLoop file pos remaining acc =
        .error "Insufficient length in container image file" := by
  intro remaining
  induction remaining using Nat.strong_induction_on with
  | _ remaining ih =>
    intro pos acc h hl
    have hz : remaining ≠ 0 := by omega
    rw [extractLoop_step file pos remaining acc hz]
    by_cases hshort : file.length - pos < min remaining 16384
    · rw [if_pos (by omega)]
    · have hfull : min (min remaining 16384) (file.length - pos) = min remaining 16384 := by
        omega
      rw [if_neg (not_not_intro hfull)]
      exact ih (remaining - min remaining 16384) (by omega) _ _ (by omega) (by omega)

theorem extract_file_ok (file : Str) (off len : Nat) (h : off + len ≤ file.length) :
    extract_file file off len = .ok ((file.drop off).take len) := by
  unfold extract_file
  rw [extractLoop_ok file len off [] h]
  rw [List.nil_append]

/-- C5 (amended): during partition-table unpack, a partition whose declared
`(offset, length)` region extends beyond the bytes available in the input is
rejected by `extract_file` with the structured truncation error.  (The
counterexample shows the outer-container path instead dies in an
out-of-bounds slice for such regions.) -/
theorem c5_truncation (file : Str) (off len : Nat)
    (h : file.length < off + len) (hl : 0 < len) :
    extract_file file off len = .error "Insufficient length in container image file" :=
  extractLoop_err file len off [] h hl

/-- C5 witness: reading 5 bytes at offset 2 of a 3-byte file is the
structured truncation error. -/
theorem c5_truncation_witness :
    extract_file [1, 2, 3] 2 5 = .error "Insufficient length in container image file" :=
  c5_truncation [1, 2, 3] 2 5 (by decide) (by decide)

/-- C5 counterexample: on `rkfwTruncated` — an outer container declaring a
65535-byte BOOT region in a 48-byte file — unpack does not fail with the
claimed structured truncation error: the out-of-bounds slice panics, so the
operation evaluates to `none` rather than to any `some (.error _)`. -/
theorem c5_cex : unpack_rkfw rkfwTruncated = none := by rfl

/-! ### Binary-layout round trip: parsing a serialized header recovers it -/

theorem u32le_length (v : Nat) : (u32le v).length = 4 := rfl

theorem u32leAt_cons (a b c d : Nat) (rest : Str) :
    u32leAt (a :: b :: c :: d :: rest) 0 = a + 256 * b + 65536 * c + 16777216 * d := rfl

theorem u32le_decode (v : Nat) (rest : Str) (h : v < 2 ^ 32) :
    u32leAt (u32le v ++ rest) 0 = v := by
  have e : u32le v ++ rest =
      v % 256 :: v / 256 % 256 :: v / 65536 % 256 :: v / 16777216 % 256 :: rest := rfl
  rw [e, u32leAt_cons]
  omega

theorem u32leAt_drop (b : Str) (i : Nat) : u32leAt (b.drop i) 0 = u32leAt b i := by
  simp [u32leAt, List.getD, List.getElem?_drop]

theorem flatten_length_const {α : Type} (f : α → Str) (k : Nat) :
    ∀ l : List α, (∀ x ∈ l, (f x).length = k) → ((l.map f).flatten).length = l.length * k := by
  intro l
  induction l with
  | nil => simp
  | cons x xs ih =>
    intro hx
    simp only [List.map_cons, List.flatten_cons, List.length_append,
      List.length_cons]
    rw [ih (fun y hy => hx y (List.mem_cons_of_mem _ hy)),
      hx x (List.mem_cons_self _ _)]
    ring

theorem flatten_extract {α : Type} (f : α → Str) (k : Nat) (d : α) :
    ∀ (l : List α) (i : Nat) (post : Str), (∀ x ∈ l, (f x).length = k) →
      i < l.length →
      (((l.map f).flatten ++ post).drop (k * i)).take k = f (l.getD i d) := by
  intro l
  induction l with
  | nil => intro i post _ hi; simp at hi
  | cons x xs ih =>
    intro i post hx hi
    cases i with
    | zero =>
      simp only [Nat.mul_zero, List.drop_zero, List.map_cons, List.flatten_cons,
        List.getD_cons_zero]
      rw [List.append_assoc, List.take_left' (hx x (List.mem_cons_self _ _))]
    | succ j =>
      have e : (((x :: xs).map f).flatten ++ post) =
          f x ++ ((xs.map f).flatten ++ post) := by
        simp [List.append_assoc]
      rw [e, show k * (j + 1) = (f x).length + k * j by
        rw [hx x (List.mem_cons_self _ _)]; ring]
      rw [List.drop_append, List.getD_cons_succ]
      exact ih j post (fun y hy => hx y (List.mem_cons_of_mem _ hy)) (by simpa using hi)

theorem partToBytes_length (p : UpdatePart) (hp : wfPart p) :
    (partToBytes p).length = 112 := by
  obtain ⟨h1, h2, _⟩ := hp
  simp [partToBytes, u32le, h1, h2]

theorem partFromBytes_partToBytes (p : UpdatePart) (hp : wfPart p) :
    partFromBytes (partToBytes p) = p := by
  obtain ⟨h1, h2, h3, h4, h5, h6, h7⟩ := hp
  have e0 : partToBytes p = p.name ++ (p.fullPath ++
      (u32le p.flashSize ++ (u32le p.partOffset ++ (u32le p.flashOffset ++
        (u32le p.paddedSize ++ u32le p.partByteCount))))) := by
    simp [partToBytes, List.append_assoc]
  have e92 : partToBytes p = (p.name ++ p.fullPath) ++
      (u32le p.flashSize ++ (u32le p.partOffset ++ (u32le p.flashOffset ++
        (u32le p.paddedSize ++ u32le p.partByteCount)))) := by
    simp [partToBytes, List.append_assoc]
  have e96 : partToBytes p = (p.name ++ p.fullPath ++ u32le p.flashSize) ++
      (u32le p.partOffset ++ (u32le p.flashOffset ++
        (u32le p.paddedSize ++ u32le p.partByteCount))) := by
    simp [partToBytes, List.append_assoc]
  have e100 : partToBytes p =
      (p.name ++ p.fullPath ++ u32le p.flashSize ++ u32le p.partOffset) ++
      (u32le p.flashOffset ++ (u32le p.paddedSize ++ u32le p.partByteCount)) := by
    simp [partToBytes, List.append_assoc]
  have e104 : partToBytes p =
      (p.name ++ p.fullPath ++ u32le p.flashSize ++ u32le p.partOffset ++
        u32le p.flashOffset) ++ (u32le p.paddedSize ++ u32le p.partByteCount) := by
    simp [partToBytes, List.append_assoc]
  have e108 : partToBytes p =
      (p.name ++ p.fullPath ++ u32le p.flashSize ++ u32le p.partOffset ++
        u32le p.flashOffset ++ u32le p.paddedSize) ++ (u32le p.partByteCount ++ []) := by
    simp [partToBytes, List.append_assoc]
  unfold partFromBytes
  congr 1
  · rw [e0, List.take_left' h1]
  · rw [e0, List.drop_left' h1, List.take_left' h2]
  · rw [← u32leAt_drop, e92, List.drop_left' (by simp [h1, h2]),
      u32le_decode _ _ h3]
  · rw [← u32leAt_drop, e96, List.drop_left' (by simp [h1, h2, u32le_length]),
      u32le_decode _ _ h4]
  · rw [← u32leAt_drop, e100, List.drop_left' (by simp [h1, h2, u32le_length]),
      u32le_decode _ _ h5]
  · rw [← u32leAt_drop, e104, List.drop_left' (by simp [h1, h2, u32le_length]),
      u32le_decode _ _ h6]
  · rw [← u32leAt_drop, e108, List.drop_left' (by simp [h1, h2, u32le_length]),
      u32le_decode _ _ h7]

theorem headerToBytes_length (h : UpdateHeader) (hw : wfHeader h) :
    (headerToBytes h).length = 2048 := by
  obtain ⟨m4, _, mo34, id30, mf56, _, _, _, p16, pwf, r116⟩ := hw
  have hfl : ((h.parts.map partToBytes).flatten).length = 16 * 112 := by
    rw [flatten_length_const partToBytes 112 h.parts
      (fun p hp => partToBytes_length p (pwf p hp)), p16]
  simp [headerToBytes, u32le, m4, mo34, id30, mf56, r116, hfl]

set_option maxHeartbeats 2000000 in
theorem headerFromBytes_headerToBytes (h : UpdateHeader) (hw : wfHeader h) :
    headerFromBytes (headerToBytes h) = h := by
  obtain ⟨m4, l32, mo34, id30, mf56, u1b, vb, nb, p16, pwf, r116⟩ := hw
  have hfl : ∀ p ∈ h.parts, (partToBytes p).length = 112 :=
    fun p hp => partToBytes_length p (pwf p hp)
  have e4 : headerToBytes h = h.magic ++ (u32le h.length ++ (h.model ++
      (h.id ++ (h.manufacturer ++ (u32le h.unknown1 ++ (u32le h.version ++
        (u32le h.numParts ++
          ((h.parts.map partToBytes).flatten ++ h.reserved)))))))) := by
    simp [headerToBytes, List.append_assoc]
  have e8 : headerToBytes h = (h.magic ++ u32le h.length) ++
      (h.model ++ (h.id ++ (h.manufacturer ++ (u32le h.unknown1 ++
        (u32le h.version ++ (u32le h.numParts ++
          ((h.parts.map partToBytes).flatten ++ h.reserved))))))) := by
    simp [headerToBytes, List.append_assoc]
  have e42 : headerToBytes h = (h.magic ++ u32le h.length ++ h.model) ++
      (h.id ++ (h.manufacturer ++ (u32le h.unknown1 ++
        (u32le h.version ++ (u32le h.numParts ++
          ((h.parts.map partToBytes).flatten ++ h.reserved)))))) := by
    simp [headerToBytes, List.append_assoc]
  have e72 : headerToBytes h = (h.magic ++ u32le h.length ++ h.model ++ h.id) ++
      (h.manufacturer ++ (u32le h.unknown1 ++
        (u32le h.version ++ (u32le h.numParts ++
          ((h.parts.map partToBytes).flatten ++ h.reserved))))) := by
    simp [headerToBytes, List.append_assoc]
  have e128 : headerToBytes h =
      (h.magic ++ u32le h.length ++ h.model ++ h.id ++ h.manufacturer) ++
      (u32le h.unknown1 ++ (u32le h.version ++ (u32le h.numParts ++
        ((h.parts.map partToBytes).flatten ++ h.reserved)))) := by
    simp [headerToBytes, List.append_assoc]
  have e132 : headerToBytes h =
      (h.magic ++ u32le h.length ++ h.model ++ h.id ++ h.manufacturer ++
        u32le h.unknown1) ++ (u32le h.version ++ (u32le h.numParts ++
        ((h.parts.map partToBytes).flatten ++ h.reserved))) := by
    simp [headerToBytes, List.append_assoc]
  have e136 : headerToBytes h =
      (h.magic ++ u32le h.length ++ h.model ++ h.id ++ h.manufacturer ++
        u32le h.unknown1 ++ u32le h.version) ++ (u32le h.numParts ++
        ((h.parts.map partToBytes).flatten ++ h.reserved)) := by
    simp [headerToBytes, List.append_assoc]
  have e140 : headerToBytes h =
      (h.magic ++ u32le h.length ++ h.model ++ h.id ++ h.manufacturer ++
        u32le h.unknown1 ++ u32le h.version ++ u32le h.numParts) ++
      ((h.parts.map partToBytes).flatten ++ h.reserved) := by
    simp [headerToBytes, List.append_assoc]
  have e1932 : headerToBytes h =
      (h.magic ++ u32le h.length ++ h.model ++ h.id ++ h.manufacturer ++
        u32le h.unknown1 ++ u32le h.version ++ u32le h.numParts ++
        (h.parts.map partToBytes).flatten) ++ (h.reserved ++ []) := by
    simp [headerToBytes, List.append_assoc]
  have hfllen : ((h.parts.map partToBytes).flatten).length = 1792 := by
    rw [flatten_length_const partToBytes 112 h.parts hfl, p16]
  unfold headerFromBytes
  congr 1
  · rw [e4, List.take_left' m4]
  · rw [← u32leAt_drop, e4, List.drop_left' m4, u32le_decode _ _ l32]
  · rw [e8, List.drop_left' (by simp [m4, u32le_length]), List.take_left' mo34]
  · rw [e42, List.drop_left' (by simp [m4, mo34, u32le_length]),
      List.take_left' id30]
  · rw [e72, List.drop_left' (by simp [m4, mo34, id30, u32le_length]),
      List.take_left' mf56]
  · rw [← u32leAt_drop, e128,
      List.drop_left' (by simp [m4, mo34, id30, mf56, u32le_length]),
      u32le_decode _ _ u1b]
  · rw [← u32leAt_drop, e132,
      List.drop_left' (by simp [m4, mo34, id30, mf56, u32le_length]),
      u32le_decode _ _ vb]
  · rw [← u32leAt_drop, e136,
      List.drop_left' (by simp [m4, mo34, id30, mf56, u32le_length]),
      u32le_decode _ _ nb]
  · refine List.ext_getElem (by simp [p16]) ?_
    intro i hi1 hi2
    have hi : i < 16 := by simpa using hi1
    have key : ((headerToBytes h).drop (140 + 112 * i)).take 112 =
        partToBytes (h.parts.getD i UpdatePart.default) := by
      rw [e140, show 140 + 112 * i =
        (h.magic ++ u32le h.length ++ h.model ++ h.id ++ h.manufacturer ++
          u32le h.unknown1 ++ u32le h.version ++ u32le h.numParts).length + 112 * i
        from by simp [m4, mo34, id30, mf56, u32le_length]]
      rw [List.drop_append]
      exact flatten_extract partToBytes 112 UpdatePart.default h.parts i h.reserved
        hfl (by omega)
    have hmem : h.parts.getD i UpdatePart.default ∈ h.parts := by
      rw [List.getD_eq_getElem _ _ (by omega)]
      exact List.getElem_mem _
    simp only [List.getElem_map, List.getElem_range]
    rw [key, partFromBytes_partToBytes _ (pwf _ hmem)]
    rw [List.getD_eq_getElem _ _ (by omega)]
  · rw [e1932, List.drop_left'
      (by simp [m4, mo34, id30, mf56, u32le_length, hfllen]),
      List.append_nil, List.take_of_length_le (by omega)]

/-! ### Partition-loop characterization and the skip rule -/

/-- The per-entry side condition under which the partition loop cannot hit a
truncation error: each entry either lies within the file or is skipped
(undecodable path or sentinel name).  Stated as a decidable disjunction. -/
def entryOk (file : Str) (p : UpdatePart) : Prop :=
  p.partOffset + p.partByteCount ≤ file.length ∨
    bytesUntilNul p.fullPath = none ∨
    bytesUntilNul p.fullPath = some (asc "SELF") ∨
    bytesUntilNul p.fullPath = some (asc "RESERVED")

instance (file : Str) (p : UpdatePart) : Decidable (entryOk file p) := by
  unfold entryOk; infer_instance

theorem unpackLoop_char (file : Str) (parts : List UpdatePart)
    (hok : ∀ p ∈ parts, entryOk file p) :
    unpackLoop file parts = some (.ok
      (parts.filterMap (fun p => (bytesUntilNul p.fullPath).bind (fun q =>
         if q = asc "SELF" ∨ q = asc "RESERVED" then none
         else some (metaLine ((bytesUntilNul p.name).getD []) q p))),
       parts.filterMap (fun p => (bytesUntilNul p.fullPath).bind (fun q =>
         if q = asc "SELF" ∨ q = asc "RESERVED" then none
         else some (q, (file.drop p.partOffset).take p.partByteCount))))) := by
  induction parts with
  | nil => rfl
  | cons part rest ih =>
    have hokr : ∀ p ∈ rest, entryOk file p :=
      fun p hp => hok p (List.mem_cons_of_mem _ hp)
    rw [unpackLoop]
    cases hq : bytesUntilNul part.fullPath with
    | none =>
      rw [ih hokr]
      simp [hq]
    | some q =>
      by_cases hs : q = asc "SELF" ∨ q = asc "RESERVED"
      · rw [ih hokr]
        simp [hq, hs]
      · have hreg : part.partOffset + part.partByteCount ≤ file.length := by
          rcases hok part (List.mem_cons_self _ _) with hb | hb | hb | hb
          · exact hb
          · rw [hq] at hb; exact absurd hb (by simp)
          · rw [hq] at hb
            exact absurd (Or.inl (Option.some.inj hb)) hs
          · rw [hq] at hb
            exact absurd (Or.inr (Option.some.inj hb)) hs
        have hef := extract_file_ok file part.partOffset part.partByteCount hreg
        rw [ih hokr]
        simp [hq, hs, hef]

/-- C6 (amended): during partition-table unpack, among the first
`partition_count` entries, an entry whose `full_path` decodes to `SELF` or
`RESERVED` contributes neither a metadata-manifest line nor an extracted
file; every other entry whose `full_path` buffer does contain a null
terminator contributes exactly one manifest line and one extracted file (in
table order); and — the amendment — an entry whose `full_path` buffer has no
null terminator is silently skipped as well. -/
theorem c6_skip_rule (file : Str)
    (hlen : ¬ file.length < headerSize)
    (hmagic : ¬ (headerFromBytes (file.take headerSize)).magic ≠ asc "RKAF")
    (hn : (headerFromBytes (file.take headerSize)).numParts ≤ 16)
    (hok : ∀ p ∈ (headerFromBytes (file.take headerSize)).parts.take
        (headerFromBytes (file.take headerSize)).numParts, entryOk file p) :
    unpack_rkafp file = some (.ok
      (((headerFromBytes (file.take headerSize)).parts.take
          (headerFromBytes (file.take headerSize)).numParts).filterMap
         (fun p => (bytesUntilNul p.fullPath).bind (fun q =>
           if q = asc "SELF" ∨ q = asc "RESERVED" then none
           else some (metaLine ((bytesUntilNul p.name).getD []) q p))),
       ((headerFromBytes (file.take headerSize)).parts.take
          (headerFromBytes (file.take headerSize)).numParts).filterMap
         (fun p => (bytesUntilNul p.fullPath).bind (fun q =>
           if q = asc "SELF" ∨ q = asc "RESERVED" then none
           else some (q, (file.drop p.partOffset).take p.partByteCount))))) := by
  unfold unpack_rkafp
  rw [if_neg hlen, if_neg hmagic, if_pos hn]
  exact unpackLoop_char file _ hok

/-- C6 witness: a container holding a `SELF` sentinel and one real entry —
the sentinel is skipped, the real entry is recorded and extracted. -/
theorem c6_skip_rule_witness :
    unpack_rkafp selfSkipContainer = some (.ok
      (((headerFromBytes (selfSkipContainer.take headerSize)).parts.take
          (headerFromBytes (selfSkipContainer.take headerSize)).numParts).filterMap
         (fun p => (bytesUntilNul p.fullPath).bind (fun q =>
           if q = asc "SELF" ∨ q = asc "RESERVED" then none
           else some (metaLine ((bytesUntilNul p.name).getD []) q p))),
       ((headerFromBytes (selfSkipContainer.take headerSize)).parts.take
          (headerFromBytes (selfSkipContainer.take headerSize)).numParts).filterMap
         (fun p => (bytesUntilNul p.fullPath).bind (fun q =>
           if q = asc "SELF" ∨ q = asc "RESERVED" then none
           else some (q, (selfSkipContainer.drop p.partOffset).take p.partByteCount))))) := by
  have wfS : wfHeader selfSkipHeader := by decide
  have hlen : (headerToBytes selfSkipHeader).length = 2048 :=
    headerToBytes_length _ wfS
  have hL : selfSkipContainer.length = 2050 := by
    simp [selfSkipContainer, hlen]
  have hh : headerFromBytes (selfSkipContainer.take headerSize) = selfSkipHeader := by
    rw [show selfSkipContainer.take headerSize = headerToBytes selfSkipHeader from
      List.take_left' hlen]
    exact headerFromBytes_headerToBytes _ wfS
  refine c6_skip_rule selfSkipContainer (by rw [hL]; decide) (by rw [hh]; decide)
    (by rw [hh]; decide) ?_
  rw [hh]
  intro p hp
  rw [show selfSkipHeader.parts.take selfSkipHeader.numParts = [selfPart, realPart]
    from by decide] at hp
  simp only [List.mem_cons, List.not_mem_nil, or_false] at hp
  rcases hp with hp | hp
  · subst hp
    exact Or.inr (Or.inr (Or.inl (by decide)))
  · subst hp
    refine Or.inl ?_
    rw [hL]
    decide

/-- C6 counterexample: `noNulContainer` is a valid container whose single
counted entry's `full_path` does not decode to `SELF` or `RESERVED`, yet
unpack produces no metadata line and no extracted file for it — the claim's
"every other such entry is both extracted and recorded" fails for entries
whose fixed `full_path` buffer lacks a null terminator. -/
theorem c6_cex :
    validContainer noNulContainer ∧
    (headerFromBytes (noNulContainer.take headerSize)).numParts = 1 ∧
    bytesUntilNul ((headerFromBytes (noNulContainer.take headerSize)).parts.getD 0
      UpdatePart.default).fullPath = none ∧
    unpack_rkafp noNulContainer = some (.ok ([], [])) := by
  have wfN : wfHeader noNulHeader := by decide
  have hlen : (headerToBytes noNulHeader).length = 2048 :=
    headerToBytes_length _ wfN
  have hL : noNulContainer.length = 2052 := by
    simp [noNulContainer, hlen, u32le]
  have ht : noNulContainer.take headerSize = headerToBytes noNulHeader :=
    List.take_left' hlen
  have hh : headerFromBytes (noNulContainer.take headerSize) = noNulHeader := by
    rw [ht]
    exact headerFromBytes_headerToBytes _ wfN
  refine ⟨?_, by rw [hh]; decide, by rw [hh]; decide, ?_⟩
  · unfold validContainer
    refine ⟨by rw [hL]; decide, by rw [hh]; decide, by rw [hh]; decide,
      by rw [hh, hL]; decide, ?_⟩
    rw [hL]
    show noNulContainer.drop 2048 = u32le (rkcrc32 0 (noNulContainer.take 2048))
    unfold noNulContainer
    rw [List.drop_left' hlen, List.take_left' hlen]
  · simp only [unpack_rkafp]
    rw [hh, hL]
    rw [if_neg (by decide), if_neg (by decide), if_pos (by decide)]
    rw [unpackLoop_char noNulContainer _ ?_]
    · rw [show noNulHeader.parts.take noNulHeader.numParts = [noNulPart] from by decide]
      simp [(by decide : bytesUntilNul noNulPart.fullPath = none)]
    · intro p hp
      rw [show noNulHeader.parts.take noNulHeader.numParts = [noNulPart] from by decide,
        List.mem_singleton] at hp
      subst hp
      exact Or.inr (Or.inl (by decide))

/-! ### Pack layout characterization -/

theorem getD_mem {α : Type} (l : List α) (k : Nat) (d : α) (h : k < l.length) :
    l.getD k d ∈ l := by
  rw [List.getD_eq_getElem _ _ h]
  exact List.getElem_mem _

theorem sumPads_append (o1 o2 : List (Str × Str)) :
    sumPads (o1 ++ o2) = sumPads o1 + sumPads o2 := by
  simp [sumPads]

theorem alookup_cons_self {α : Type} (k : Str) (v : α) (rest : List (Str × α)) :
    alookup ((k, v) :: rest) k = some v := by
  simp [alookup]

theorem alookup_cons_ne {α : Type} (k : Str) (v : α) (rest : List (Str × α))
    (q : Str) (h : k ≠ q) : alookup ((k, v) :: rest) q = alookup rest q := by
  simp [alookup, h]

theorem packLoad_char (fs : List (Str × Str)) (path : Str) (st : PackSt)
    (hcoh : layoutCoh fs st) (hsmall : st.cursor < 2 ^ 32)
    (hfs : alookup fs path ≠ none) :
    ∃ d off st', packLoad fs path st = .ok (off, d.length % 2 ^ 32, st') ∧
      alookup fs path = some d ∧
      layoutCoh fs st' ∧
      alookup st'.fileMap path = some (d, off, padOf d) ∧
      st'.parts = st.parts ∧
      (∀ p v, alookup st.fileMap p = some v → alookup st'.fileMap p = some v) ∧
      (∃ tail, st'.order = st.order ++ tail) ∧
      st'.cursor ≤ st.cursor + padOf ((alookup fs path).getD []) := by
  obtain ⟨hcur, hnd, hmem, hfwd, hbwd⟩ := hcoh
  unfold packLoad
  cases hm : alookup st.fileMap path with
  | some v =>
    obtain ⟨d, off, pad⟩ := v
    obtain ⟨hpad, k, hk, hgetk, hoff⟩ := hfwd path d off pad hm
    have hdfs : alookup fs path = some d := by
      have : (path, d) ∈ st.order := by
        rw [← hgetk]
        exact getD_mem _ _ _ hk
      exact hmem path d this
    subst hpad
    exact ⟨d, off, st, rfl, hdfs, ⟨hcur, hnd, hmem, hfwd, hbwd⟩, by rw [hm],
      rfl, fun p v hv => hv, ⟨[], by simp⟩, by omega⟩
  | none =>
    cases hf : alookup fs path with
    | none => exact absurd hf hfs
    | some d =>
      have hnotin : path ∉ st.order.map Prod.fst := by
        intro hin
        obtain ⟨⟨p', d'⟩, hpd, hp⟩ := List.mem_map.mp hin
        simp only at hp
        subst hp
        obtain ⟨k, hk, hgetk⟩ := List.getElem_of_mem hpd
        have hb := hbwd k (by omega)
        rw [List.getD_eq_getElem _ _ (by omega), hgetk] at hb
        simp only at hb
        rw [hm] at hb
        exact Option.noConfusion hb
      refine ⟨d, st.cursor % 2 ^ 32,
        ⟨(path, (d, st.cursor % 2 ^ 32, padOf d)) :: st.fileMap,
         st.order ++ [(path, d)], st.cursor + padOf d, st.parts⟩,
        rfl, rfl, ?_, alookup_cons_self _ _ _, rfl, ?_, ⟨[(path, d)], rfl⟩, by simp⟩
      · refine ⟨?_, ?_, ?_, ?_, ?_⟩
        · have h1 : sumPads [(path, d)] = padOf d := by simp [sumPads]
          show st.cursor + padOf d = 2048 + sumPads (st.order ++ [(path, d)])
          rw [sumPads_append, h1, hcur]
          omega
        · simp only [List.map_append, List.map_cons, List.map_nil]
          rw [List.nodup_append]
          exact ⟨hnd, List.nodup_singleton _, by
            intro a ha hb
            rw [List.mem_singleton] at hb
            subst hb
            exact hnotin ha⟩
        · intro p d' hpd
          rcases List.mem_append.mp hpd with hold | hnew
          · exact hmem p d' hold
          · rw [List.mem_singleton] at hnew
            injection hnew with e1 e2
            subst e1; subst e2
            exact hf
        · intro p d' off' pad' hl
          by_cases hp : path = p
          · subst hp
            rw [alookup_cons_self] at hl
            injection hl with hl
            injection hl with e1 hl
            injection hl with e2 e3
            subst e1
            refine ⟨e3.symm, st.order.length, by simp, ?_, ?_⟩
            · rw [List.getD_eq_getElem _ _ (by simp)]
              rw [List.getElem_append_right (by omega)]
              simp
            · rw [List.take_append_of_le_length (le_refl _), List.take_length,
                ← hcur, ← e2, Nat.mod_eq_of_lt hsmall]
          · rw [alookup_cons_ne _ _ _ _ hp] at hl
            obtain ⟨hpad, k, hk, hgetk, hoff⟩ := hfwd p d' off' pad' hl
            refine ⟨hpad, k, by simp; omega, ?_, ?_⟩
            · rw [List.getD_eq_getElem _ _ (by simp; omega),
                List.getElem_append_left hk, ← List.getD_eq_getElem _ _ hk, hgetk]
            · rw [List.take_append_of_le_length (by omega), hoff]
        · intro k hk
          simp only [List.length_append, List.length_singleton] at hk
          by_cases hke : k < st.order.length
          · have hgk : (st.order ++ [(path, d)]).getD k ([], []) =
                st.order.getD k ([], []) := by
              rw [List.getD_eq_getElem _ _ (by simp; omega),
                List.getElem_append_left hke, ← List.getD_eq_getElem _ _ hke]
            rw [hgk, List.take_append_of_le_length (by omega)]
            have hneq : path ≠ (st.order.getD k ([], [])).1 := by
              intro he
              exact hnotin (he ▸ List.mem_map.mpr
                ⟨st.order.getD k ([], []), getD_mem _ _ _ hke, rfl⟩)
            rw [alookup_cons_ne _ _ _ _ hneq]
            exact hbwd k hke
          · have hkeq : k = st.order.length := by omega
            subst hkeq
            have hgk : (st.order ++ [(path, d)]).getD st.order.length ([], []) =
                (path, d) := by
              rw [List.getD_eq_getElem _ _ (by simp)]
              rw [List.getElem_append_right (by omega)]
              simp
            rw [hgk, List.take_append_of_le_length (le_refl _), List.take_length]
            have : (path, d).1 = path := rfl
            rw [this, alookup_cons_self, ← hcur, Nat.mod_eq_of_lt hsmall]
      · intro p v hv
        have hneq : path ≠ p := by
          intro he
          subst he
          rw [hm] at hv
          exact Option.noConfusion hv
        rw [alookup_cons_ne _ _ _ _ hneq]
        exact hv

theorem entPads_cons (fs : List (Str × Str)) (e : Str × Str)
    (rest : List (Str × Str)) :
    entPads fs (e :: rest) = padOf ((alookup fs e.2).getD []) + entPads fs rest := by
  simp [entPads]

theorem packLoop_char (fs : List (Str × Str)) (meta : List (Str × PartitionMetadata)) :
    ∀ (entries : List (Str × Str)) (i : Nat) (st : PackSt),
    layoutCoh fs st →
    (∀ e ∈ entries, alookup fs e.2 ≠ none) →
    (∀ e ∈ entries, alookup meta e.1 ≠ none) →
    i + entries.length ≤ 16 →
    st.parts.length = 16 →
    st.cursor + entPads fs entries < 2 ^ 32 →
    ∃ st', packLoop fs meta entries i st = some (.ok st') ∧
      layoutCoh fs st' ∧
      st'.parts.length = 16 ∧
      st'.cursor ≤ st.cursor + entPads fs entries ∧
      st.cursor ≤ st'.cursor ∧
      (∃ tail, st'.order = st.order ++ tail) ∧
      (∀ p v, alookup st.fileMap p = some v → alookup st'.fileMap p = some v) ∧
      (∀ k, k < i → st'.parts.getD k UpdatePart.default =
        st.parts.getD k UpdatePart.default) ∧
      (∀ k, i + entries.length ≤ k →
        st'.parts.getD k UpdatePart.default = st.parts.getD k UpdatePart.default) ∧
      (∀ j, j < entries.length →
        ∃ dj offj m, alookup fs (entries.getD j ([], [])).2 = some dj ∧
          alookup meta (entries.getD j ([], [])).1 = some m ∧
          alookup st'.fileMap (entries.getD j ([], [])).2 = some (dj, offj, padOf dj) ∧
          st'.parts.getD (i + j) UpdatePart.default =
            mkPart (entries.getD j ([], [])).1 (entries.getD j ([], [])).2 m offj
              (dj.length % 2 ^ 32)) := by
  intro entries
  induction entries with
  | nil =>
    intro i st hcoh _ _ _ hplen _
    exact ⟨st, rfl, hcoh, hplen, by simp [entPads], le_refl _, ⟨[], by simp⟩,
      fun p v hv => hv, fun k _ => rfl, fun k _ => rfl, fun j hj => by simp at hj⟩
  | cons e rest ih =>
    intro i st hcoh hfs hmeta hi hplen hbound
    obtain ⟨name, path⟩ := e
    have hsmall : st.cursor < 2 ^ 32 := by
      have := hbound
      omega
    obtain ⟨d, off, st1, hpl, hdfs, hcoh1, hmap1, hparts1, hmono1, ⟨tail1, hord1⟩,
      hcur1⟩ := packLoad_char fs path st hcoh hsmall
        (hfs (name, path) (List.mem_cons_self _ _))
    cases hm : alookup meta name with
    | none =>
      exact absurd hm (hmeta (name, path) (List.mem_cons_self _ _))
    | some m =>
      have hilt : i < 16 := by
        simp only [List.length_cons] at hi
        omega
      set st2 : PackSt := ⟨st1.fileMap, st1.order, st1.cursor,
        st1.parts.set i (mkPart name path m off (d.length % 2 ^ 32))⟩ with hst2
      have hcoh2 : layoutCoh fs st2 := hcoh1
      have hplen2 : st2.parts.length = 16 := by
        simp [hst2, hparts1, hplen]
      have hec : entPads fs ((name, path) :: rest) = padOf d + entPads fs rest := by
        rw [entPads_cons]
        simp [hdfs]
      have hc1 : st1.cursor ≤ st.cursor + padOf d := by
        rw [hdfs] at hcur1
        simpa using hcur1
      have hbound2 : st2.cursor + entPads fs rest < 2 ^ 32 := by
        rw [hec] at hbound
        have h2 : st2.cursor = st1.cursor := rfl
        omega
      have hi2 : (i + 1) + rest.length ≤ 16 := by
        simp only [List.length_cons] at hi
        omega
      obtain ⟨st', heq, hcoh', hplen', hcurU, hcurL, ⟨tail', hord'⟩, hmono',
        hbelow', habove', hentry'⟩ :=
        ih (i + 1) st2 hcoh2
          (fun e he => hfs e (List.mem_cons_of_mem _ he))
          (fun e he => hmeta e (List.mem_cons_of_mem _ he))
          hi2 hplen2 hbound2
      refine ⟨st', ?_, hcoh', hplen', ?_, ?_, ?_, ?_, ?_, ?_, ?_⟩
      · rw [packLoop, hpl, hm]
        show (if i < 16 then packLoop fs meta rest (i + 1) st2 else none) =
          some (.ok st')
        rw [if_pos hilt]
        exact heq
      · rw [hec]
        have h2 : st2.cursor = st1.cursor := rfl
        omega
      · have h2 : st2.cursor = st1.cursor := rfl
        have hmono : st.cursor ≤ st1.cursor := by
          have hc := hcoh.1
          have hc1 := hcoh1.1
          rw [hc, hc1, hord1, sumPads_append]
          omega
        omega
      · obtain ⟨t2, ht2⟩ : ∃ t, st2.order = st1.order ++ t := ⟨[], by simp [hst2]⟩
        exact ⟨tail1 ++ (t2 ++ tail'), by
          rw [hord', ht2, hord1]
          simp [List.append_assoc]⟩
      · intro p v hv
        exact hmono' p v (hmono1 p v hv)
      · intro k hk
        have h1 := hbelow' k (by omega)
        rw [h1]
        show (st1.parts.set i (mkPart name path m off (d.length % 2 ^ 32))).getD k
          UpdatePart.default = st.parts.getD k UpdatePart.default
        rw [hparts1]
        simp [List.getD, List.getElem?_set, Nat.ne_of_lt' (show k < i from hk)]
      · intro k hk
        simp only [List.length_cons] at hk
        have h1 := habove' k (by omega)
        rw [h1]
        show (st1.parts.set i (mkPart name path m off (d.length % 2 ^ 32))).getD k
          UpdatePart.default = st.parts.getD k UpdatePart.default
        rw [hparts1]
        have : i ≠ k := by omega
        simp [List.getD, List.getElem?_set, this]
      · intro j hj
        cases j with
        | zero =>
          refine ⟨d, off, m, hdfs, hm, ?_, ?_⟩
          · exact hmono' path _ hmap1
          · have h1 := hbelow' i (by omega)
            rw [Nat.add_zero, h1]
            show (st1.parts.set i (mkPart name path m off (d.length % 2 ^ 32))).getD i
              UpdatePart.default = _
            rw [hparts1]
            simp [List.getD, List.getElem?_set, hilt, hplen]
        | succ j' =>
          simp only [List.length_cons] at hj
          obtain ⟨dj, offj, mj, h1, h2, h3, h4⟩ := hentry' j' (by omega)
          refine ⟨dj, offj, mj, h1, h2, h3, ?_⟩
          rw [show i + (j' + 1) = (i + 1) + j' from by omega]
          exact h4

theorem packLoop_no_panic (fs : List (Str × Str))
    (meta : List (Str × PartitionMetadata)) :
    ∀ (entries : List (Str × Str)) (i : Nat) (st : PackSt),
    i + entries.length ≤ 16 →
    packLoop fs meta entries i st ≠ none := by
  intro entries
  induction entries with
  | nil => intro i st _ h; exact Option.noConfusion h
  | cons e rest ih =>
    intro i st hi
    obtain ⟨name, path⟩ := e
    rw [packLoop]
    cases hpl : packLoad fs path st with
    | error e => exact fun h => Option.noConfusion h
    | ok v =>
      obtain ⟨off, size, st1⟩ := v
      cases hm : alookup meta name with
      | none => exact fun h => Option.noConfusion h
      | some m =>
        have hilt : i < 16 := by
          simp only [List.length_cons] at hi
          omega
        show (if i < 16 then packLoop fs meta rest (i + 1)
          ⟨st1.fileMap, st1.order, st1.cursor,
           st1.parts.set i (mkPart name path m off size)⟩ else none) ≠ none
        rw [if_pos hilt]
        exact ih (i + 1) _ (by simp only [List.length_cons] at hi; omega)

theorem packLoop_oob (fs : List (Str × Str))
    (meta : List (Str × PartitionMetadata)) :
    ∀ (entries : List (Str × Str)) (i : Nat) (st : PackSt),
    (∀ e ∈ entries, alookup fs e.2 ≠ none) →
    (∀ e ∈ entries, alookup meta e.1 ≠ none) →
    i ≤ 16 →
    16 < i + entries.length →
    packLoop fs meta entries i st = none := by
  intro entries
  induction entries with
  | nil => intro i st _ _ hle hgt; simp at hgt; omega
  | cons e rest ih =>
    intro i st hfs hmeta hle hgt
    obtain ⟨name, path⟩ := e
    rw [packLoop]
    have hplok : ∀ st0 : PackSt, ∃ off size st1,
        packLoad fs path st0 = .ok (off, size, st1) := by
      intro st0
      unfold packLoad
      cases hm : alookup st0.fileMap path with
      | some v =>
        obtain ⟨d, off, pad⟩ := v
        exact ⟨off, d.length % 2 ^ 32, st0, rfl⟩
      | none =>
        cases hf : alookup fs path with
        | none => exact absurd hf (hfs (name, path) (List.mem_cons_self _ _))
        | some d =>
          exact ⟨st0.cursor % 2 ^ 32, d.length % 2 ^ 32, _, rfl⟩
    obtain ⟨off, size, st1, hpl⟩ := hplok st
    rw [hpl]
    cases hm : alookup meta name with
    | none => exact absurd hm (hmeta (name, path) (List.mem_cons_self _ _))
    | some m =>
      show (if i < 16 then packLoop fs meta rest (i + 1)
        ⟨st1.fileMap, st1.order, st1.cursor,
         st1.parts.set i (mkPart name path m off size)⟩ else none) = none
      by_cases hilt : i < 16
      · rw [if_pos hilt]
        exact ih (i + 1) _ (fun e he => hfs e (List.mem_cons_of_mem _ he))
          (fun e he => hmeta e (List.mem_cons_of_mem _ he)) (by omega)
          (by simp only [List.length_cons] at hgt; omega)
      · rw [if_neg hilt]

/-! ### Body assembly -/

theorem padOf_spec (d : Str) (h : d.length + 2047 < 2 ^ 32) :
    padOf d = (d.length + 2047) / 2048 * 2048 ∧ d.length ≤ padOf d ∧
      padOf d % 2048 = 0 ∧ padOf d < 2 ^ 32 := by
  unfold padOf
  omega

theorem sumPads_cons (e : Str × Str) (rest : List (Str × Str)) :
    sumPads (e :: rest) = padOf e.2 + sumPads rest := by
  simp [sumPads]

theorem sumPads_take_succ (order : List (Str × Str)) (k : Nat)
    (h : k < order.length) :
    sumPads (order.take (k + 1)) =
      sumPads (order.take k) + padOf (order.getD k ([], [])).2 := by
  rw [List.take_succ, sumPads_append, List.getElem?_eq_getElem h,
    List.getD_eq_getElem _ _ h]
  simp [sumPads]

theorem sumPads_take_le (order : List (Str × Str)) (n : Nat) :
    sumPads (order.take n) ≤ sumPads order := by
  conv_rhs => rw [← List.take_append_drop n order]
  rw [sumPads_append]
  omega

/-- The body segment written for one laid-out file. -/
theorem bodyBytes_char (fm : List (Str × (Str × Nat × Nat))) :
    ∀ (order : List (Str × Str)),
    (∀ p d, (p, d) ∈ order → ∃ off, alookup fm p = some (d, off, padOf d)) →
    (∀ p d, (p, d) ∈ order → d.length ≤ padOf d) →
    bodyBytes fm order = some
      ((order.map (fun e => e.2 ++ List.replicate (padOf e.2 - e.2.length) 0)).flatten) := by
  intro order
  induction order with
  | nil => intro _ _; rfl
  | cons e rest ih =>
    intro hlk hle
    obtain ⟨p, d⟩ := e
    obtain ⟨off, hoff⟩ := hlk p d (List.mem_cons_self _ _)
    rw [bodyBytes, hoff]
    show (if d.length ≤ padOf d then
        (bodyBytes fm rest).map
          (fun tail => d ++ List.replicate (padOf d - d.length) 0 ++ tail)
      else none) = _
    rw [if_pos (hle p d (List.mem_cons_self _ _))]
    rw [ih (fun q d' hq => hlk q d' (List.mem_cons_of_mem _ hq))
        (fun q d' hq => hle q d' (List.mem_cons_of_mem _ hq))]
    simp [List.append_assoc]

theorem body_length :
    ∀ (order : List (Str × Str)), (∀ p d, (p, d) ∈ order → d.length ≤ padOf d) →
    ((order.map (fun e => e.2 ++ List.replicate (padOf e.2 - e.2.length) 0)).flatten).length =
      sumPads order := by
  intro order
  induction order with
  | nil => intro _; rfl
  | cons e rest ih =>
    intro hle
    obtain ⟨p, d⟩ := e
    have h1 := hle p d (List.mem_cons_self _ _)
    rw [sumPads_cons]
    simp [ih (fun q d' hq => hle q d' (List.mem_cons_of_mem _ hq))]
    omega

theorem body_slice :
    ∀ (order : List (Str × Str)), (∀ p d, (p, d) ∈ order → d.length ≤ padOf d) →
    ∀ k, k < order.length →
    (((order.map (fun e => e.2 ++ List.replicate (padOf e.2 - e.2.length) 0)).flatten).drop
        (sumPads (order.take k))).take (order.getD k ([], [])).2.length =
      (order.getD k ([], [])).2 := by
  intro order
  induction order with
  | nil => intro _ k hk; simp at hk
  | cons e rest ih =>
    intro hle k hk
    obtain ⟨p, d⟩ := e
    have h1 := hle p d (List.mem_cons_self _ _)
    cases k with
    | zero =>
      simp only [List.take_zero, sumPads, List.map_nil, List.sum_nil,
        List.drop_zero, List.map_cons, List.flatten_cons, List.getD_cons_zero]
      rw [List.append_assoc, List.take_left]
    | succ k' =>
      simp only [List.length_cons] at hk
      have hseg : (d ++ List.replicate (padOf (p, d).2 - d.length) 0).length =
          padOf (p, d).2 := by
        simp only [List.length_append, List.length_replicate]
        simp only at h1 ⊢
        omega
      simp only [List.take_succ_cons, sumPads_cons, List.map_cons,
        List.flatten_cons, List.getD_cons_succ]
      rw [show padOf (p, d).2 + sumPads (rest.take k') =
        (d ++ List.replicate (padOf (p, d).2 - d.length) 0).length +
          sumPads (rest.take k') from by rw [hseg]]
      rw [List.drop_append]
      exact ih (fun q d' hq => hle q d' (List.mem_cons_of_mem _ hq)) k' (by omega)

/-- `pack_rkaf` unfolded on the success path, in terms of the final layout
state and assembled body. -/
theorem pack_rkaf_eq (packageLines metadataLines paramLines : List Str)
    (fs : List (Str × Str)) (model manufacturer : Str)
    (meta : List (Str × PartitionMetadata)) (st' : PackSt) (body : Str)
    (hmp : parse_partition_metadata metadataLines = .ok meta)
    (hmne : ¬ meta = [])
    (hne : ¬ parsePackageFile packageLines = [])
    (hloop : packLoop fs meta (parsePackageFile packageLines) 0
      ⟨[], [], 2048, UpdateHeader.default.parts⟩ = some (.ok st'))
    (hbody : bodyBytes st'.fileMap st'.order = some body) :
    pack_rkaf packageLines metadataLines paramLines fs model manufacturer =
      some (.ok
        (headerToBytes (packHeader (parsePackageFile packageLines).length
            (parseMachineId paramLines) model manufacturer st') ++ body ++
          u32le (rkcrc32 0
            (headerToBytes (packHeader (parsePackageFile packageLines).length
              (parseMachineId paramLines) model manufacturer st') ++ body)))) := by
  have hst0 : ((headerSize + 2048 - 1) / 2048 * 2048 : Nat) = 2048 := by
    unfold headerSize
    norm_num
  have hz : ((2048 - headerSize : Nat)) = 0 := by
    unfold headerSize
    norm_num
  simp only [pack_rkaf, hmp, if_neg hne, if_neg hmne, hst0, hloop, hbody, hz,
    List.replicate_zero, List.append_nil]
  simp [packHeader, UpdateHeader.default]

theorem padOf_mod (d : Str) : padOf d % 2048 = 0 := Nat.mul_mod_left _ _

theorem sumPads_mod (order : List (Str × Str)) : sumPads order % 2048 = 0 := by
  induction order with
  | nil => rfl
  | cons e rest ih =>
    rw [sumPads_cons]
    have := padOf_mod e.2
    omega

theorem coh_st0 (fs : List (Str × Str)) :
    layoutCoh fs ⟨[], [], 2048, UpdateHeader.default.parts⟩ := by
  refine ⟨by simp [sumPads], by simp, ?_, ?_, ?_⟩
  · intro p d h
    simp at h
  · intro p d off pad h
    simp [alookup] at h
  · intro k hk
    simp at hk

theorem st0_parts_length : (UpdateHeader.default.parts).length = 16 := by
  simp [UpdateHeader.default]

theorem coh_order_lookup (fs : List (Str × Str)) (st : PackSt)
    (hcoh : layoutCoh fs st) :
    ∀ p d, (p, d) ∈ st.order → ∃ off, alookup st.fileMap p = some (d, off, padOf d) := by
  intro p d hpd
  obtain ⟨k, hk, hget⟩ := List.getElem_of_mem hpd
  have hb := hcoh.2.2.2.2 k (by omega)
  rw [List.getD_eq_getElem _ _ (by omega), hget] at hb
  simp only at hb
  exact ⟨2048 + sumPads (st.order.take k), hb⟩

/-- C4: for every partition-table pack performed under the conditions that
make it succeed (well-formed manifests, all files and geometry present, files
sector-roundable without `u32` overflow, total size within `u32`), the data
region starts at a multiple of 2048, every built partition entry's container
offset is an exact multiple of 2048, and every laid-out padded size is the
smallest multiple of 2048 that is at least the file's byte length. -/
theorem c4_alignment (packageLines metadataLines paramLines : List Str)
    (fs : List (Str × Str)) (model manufacturer : Str)
    (meta : List (Str × PartitionMetadata))
    (hmp : parse_partition_metadata metadataLines = .ok meta)
    (hmne : ¬ meta = [])
    (hne : ¬ parsePackageFile packageLines = [])
    (h16 : (parsePackageFile packageLines).length ≤ 16)
    (hfs : ∀ e ∈ parsePackageFile packageLines, alookup fs e.2 ≠ none)
    (hmeta : ∀ e ∈ parsePackageFile packageLines, alookup meta e.1 ≠ none)
    (hsf : ∀ p d, alookup fs p = some d → d.length + 2047 < 2 ^ 32)
    (hbound : 2048 + entPads fs (parsePackageFile packageLines) < 2 ^ 32) :
    ∃ st' B,
      pack_rkaf packageLines metadataLines paramLines fs model manufacturer =
        some (.ok B) ∧
      packLoop fs meta (parsePackageFile packageLines) 0
        ⟨[], [], 2048, UpdateHeader.default.parts⟩ = some (.ok st') ∧
      (headerSize + 2048 - 1) / 2048 * 2048 % 2048 = 0 ∧
      (∀ j, j < (parsePackageFile packageLines).length →
        ∃ d pad, alookup fs ((parsePackageFile packageLines).getD j ([], [])).2 =
            some d ∧
          (st'.parts.getD j UpdatePart.default).partOffset % 2048 = 0 ∧
          (st'.parts.getD j UpdatePart.default).partByteCount = d.length ∧
          alookup st'.fileMap ((parsePackageFile packageLines).getD j ([], [])).2 =
            some (d, (st'.parts.getD j UpdatePart.default).partOffset, pad) ∧
          d.length ≤ pad ∧ pad % 2048 = 0 ∧ pad < d.length + 2048) := by
  obtain ⟨st', hloop, hcoh', hplen', hcurU, hcurL, ⟨tail', hord'⟩, hmono',
    hbelow', habove', hentry'⟩ :=
    packLoop_char fs meta (parsePackageFile packageLines) 0
      ⟨[], [], 2048, UpdateHeader.default.parts⟩ (coh_st0 fs) hfs hmeta
      (by omega) st0_parts_length (by simpa using hbound)
  have hsmallOrd : ∀ p d, (p, d) ∈ st'.order → d.length ≤ padOf d := by
    intro p d hpd
    have hdfs := hcoh'.2.2.1 p d hpd
    exact (padOf_spec d (hsf p d hdfs)).2.1
  obtain ⟨body, hbody⟩ : ∃ body, bodyBytes st'.fileMap st'.order = some body :=
    ⟨_, bodyBytes_char st'.fileMap st'.order (coh_order_lookup fs st' hcoh')
      hsmallOrd⟩
  refine ⟨st', _, pack_rkaf_eq packageLines metadataLines paramLines fs model
    manufacturer meta st' body hmp hmne hne hloop hbody, hloop, by norm_num, ?_⟩
  intro j hj
  obtain ⟨dj, offj, mj, hdj, hmj, hfm, hpart⟩ := hentry' j hj
  have hsmall := hsf _ dj hdj
  obtain ⟨hpeq, hple, hpmod, hplt⟩ := padOf_spec dj hsmall
  have hoffmod : offj % 2048 = 0 := by
    obtain ⟨hpad, k, hk, hgetk, hoff⟩ := hcoh'.2.2.2.1 _ dj offj (padOf dj) hfm
    rw [hoff]
    have := sumPads_mod (st'.order.take k)
    omega
  refine ⟨dj, padOf dj, hdj, ?_, ?_, ?_, hple, hpmod, ?_⟩
  · rw [Nat.zero_add] at hpart
    rw [hpart]
    show offj % 2048 = 0
    exact hoffmod
  · rw [Nat.zero_add] at hpart
    rw [hpart]
    show dj.length % 2 ^ 32 = dj.length
    omega
  · rw [Nat.zero_add] at hpart
    rw [hpart]
    exact hfm
  · omega

/-- C4 witness: a concrete one-partition pack (3-byte file) satisfies the
alignment conclusions. -/
theorem c4_alignment_witness :
    ∃ st' B,
      pack_rkaf wPkg wMeta [] wFs (asc "m") (asc "M") = some (.ok B) ∧
      packLoop wFs wMetaParsed (parsePackageFile wPkg) 0
        ⟨[], [], 2048, UpdateHeader.default.parts⟩ = some (.ok st') ∧
      (headerSize + 2048 - 1) / 2048 * 2048 % 2048 = 0 ∧
      (∀ j, j < (parsePackageFile wPkg).length →
        ∃ d pad, alookup wFs ((parsePackageFile wPkg).getD j ([], [])).2 = some d ∧
          (st'.parts.getD j UpdatePart.default).partOffset % 2048 = 0 ∧
          (st'.parts.getD j UpdatePart.default).partByteCount = d.length ∧
          alookup st'.fileMap ((parsePackageFile wPkg).getD j ([], [])).2 =
            some (d, (st'.parts.getD j UpdatePart.default).partOffset, pad) ∧
          d.length ≤ pad ∧ pad % 2048 = 0 ∧ pad < d.length + 2048) :=
  c4_alignment wPkg wMeta [] wFs (asc "m") (asc "M") wMetaParsed (by rfl)
    (by decide) (by decide) (by decide) (by decide) (by decide)
    (by
      intro p d h
      simp only [wFs, alookup] at h
      split at h
      · injection h with h
        subst h
        decide
      · exact Option.noConfusion h)
    (by decide)

/-- C10: `pack_rkaf` never checks the manifest's entry count against the
16-entry table.  For at most 16 parsed entries every per-entry write of
`header.parts[i]` is in bounds, so the layout loop never dies (it returns a
result, successful or a structured error); for more than 16 entries whose
files and geometry all resolve, the write at index 16 is out of bounds — the
operation can neither complete nor return a structured error for the
oversized manifest (it panics, `none`). -/
theorem c10_bounds :
    (∀ (fs : List (Str × Str)) (meta : List (Str × PartitionMetadata))
       (entries : List (Str × Str)) (st : PackSt), entries.length ≤ 16 →
       packLoop fs meta entries 0 st ≠ none) ∧
    (∀ (packageLines metadataLines paramLines : List Str)
       (fs : List (Str × Str)) (model manufacturer : Str)
       (meta : List (Str × PartitionMetadata)),
       parse_partition_metadata metadataLines = .ok meta →
       16 < (parsePackageFile packageLines).length →
       (∀ e ∈ parsePackageFile packageLines, alookup fs e.2 ≠ none) →
       (∀ e ∈ parsePackageFile packageLines, alookup meta e.1 ≠ none) →
       pack_rkaf packageLines metadataLines paramLines fs model manufacturer =
         none) := by
  constructor
  · intro fs meta entries st hlen
    exact packLoop_no_panic fs meta entries 0 st (by omega)
  · intro packageLines metadataLines paramLines fs model manufacturer meta
      hmp hlen hfs hmeta
    have hne : ¬ parsePackageFile packageLines = [] := by
      intro h
      rw [h] at hlen
      simp at hlen
    have hmne : ¬ meta = [] := by
      intro h
      cases hfl : parsePackageFile packageLines with
      | nil => exact hne hfl
      | cons e rest =>
        have := hmeta e (by rw [hfl]; exact List.mem_cons_self _ _)
        rw [h] at this
        exact this rfl
    have hloop := packLoop_oob fs meta (parsePackageFile packageLines) 0
      ⟨[], [], 2048, UpdateHeader.default.parts⟩ hfs hmeta (by omega) (by omega)
    have hst0 : ((headerSize + 2048 - 1) / 2048 * 2048 : Nat) = 2048 := by
      unfold headerSize
      norm_num
    simp only [pack_rkaf, hmp, if_neg hne, if_neg hmne, hst0, hloop]

theorem count_key_once {β : Type} (order : List (Str × β)) (p : Str)
    (hnd : (order.map Prod.fst).Nodup) (hmem : p ∈ order.map Prod.fst) :
    order.countP (fun e => decide (e.1 = p)) = 1 := by
  induction order with
  | nil => simp at hmem
  | cons e rest ih =>
    rw [List.map_cons, List.nodup_cons] at hnd
    rw [List.map_cons, List.mem_cons] at hmem
    rw [List.countP_cons]
    rcases hmem with hp | hp
    · subst hp
      have hz : rest.countP (fun x => decide (x.1 = e.1)) = 0 := by
        rw [List.countP_eq_zero]
        intro a ha hc
        rw [decide_eq_true_eq] at hc
        exact hnd.1 (hc ▸ List.mem_map.mpr ⟨a, ha, rfl⟩)
      simp [hz]
    · have hne : ¬ (e.1 = p) := by
        intro he
        exact hnd.1 (he ▸ hp)
      rw [ih hnd.2 hp]
      simp [hne]

/-- C10 witness: a 1-entry manifest loop returns a result; a concrete
17-entry manifest with all files and geometry present makes `pack_rkaf`
panic. -/
theorem c10_bounds_witness :
    packLoop wFs wMetaParsed (parsePackageFile wPkg) 0
      ⟨[], [], 2048, UpdateHeader.default.parts⟩ ≠ none ∧
    pack_rkaf bigPkg bigMeta [] [(asc "f", [])] (asc "m") (asc "M") = none :=
  ⟨c10_bounds.1 wFs wMetaParsed (parsePackageFile wPkg)
      ⟨[], [], 2048, UpdateHeader.default.parts⟩ (by decide),
   c10_bounds.2 bigPkg bigMeta [] [(asc "f", [])] (asc "m") (asc "M")
      bigMetaParsed (by rfl) (by decide) (by decide) (by decide)⟩

/-- C7 (amended): in a pack whose manifest has two entries `j1 ≠ j2` naming
the same relative path (with distinct, well-formed partition names), the two
resulting partition entries carry distinct `name` fields but **equal**
`full_path` fields (both encode the shared path), identical `part_offset` and
identical byte count; each entry's `padded_size` field is its own name's
geometry value (identical only when the geometry agrees); and the underlying
file occurs exactly once in the layout order (its bytes are written once). -/
theorem c7_aliasing (packageLines metadataLines paramLines : List Str)
    (fs : List (Str × Str)) (model manufacturer : Str)
    (meta : List (Str × PartitionMetadata)) (j1 j2 : Nat)
    (hmp : parse_partition_metadata metadataLines = .ok meta)
    (hmne : ¬ meta = [])
    (hne : ¬ parsePackageFile packageLines = [])
    (h16 : (parsePackageFile packageLines).length ≤ 16)
    (hfs : ∀ e ∈ parsePackageFile packageLines, alookup fs e.2 ≠ none)
    (hmeta : ∀ e ∈ parsePackageFile packageLines, alookup meta e.1 ≠ none)
    (hsf : ∀ p d, alookup fs p = some d → d.length + 2047 < 2 ^ 32)
    (hbound : 2048 + entPads fs (parsePackageFile packageLines) < 2 ^ 32)
    (hj1 : j1 < (parsePackageFile packageLines).length)
    (hj2 : j2 < (parsePackageFile packageLines).length)
    (hpath : ((parsePackageFile packageLines).getD j1 ([], [])).2 =
      ((parsePackageFile packageLines).getD j2 ([], [])).2)
    (hn : ((parsePackageFile packageLines).getD j1 ([], [])).1 ≠
      ((parsePackageFile packageLines).getD j2 ([], [])).1)
    (hn1 : ((parsePackageFile packageLines).getD j1 ([], [])).1.length < 32)
    (hn2 : ((parsePackageFile packageLines).getD j2 ([], [])).1.length < 32)
    (hz1 : 0 ∉ ((parsePackageFile packageLines).getD j1 ([], [])).1)
    (hz2 : 0 ∉ ((parsePackageFile packageLines).getD j2 ([], [])).1) :
    ∃ st' B m1 m2,
      pack_rkaf packageLines metadataLines paramLines fs model manufacturer =
        some (.ok B) ∧
      packLoop fs meta (parsePackageFile packageLines) 0
        ⟨[], [], 2048, UpdateHeader.default.parts⟩ = some (.ok st') ∧
      alookup meta ((parsePackageFile packageLines).getD j1 ([], [])).1 = some m1 ∧
      alookup meta ((parsePackageFile packageLines).getD j2 ([], [])).1 = some m2 ∧
      (st'.parts.getD j1 UpdatePart.default).name ≠
        (st'.parts.getD j2 UpdatePart.default).name ∧
      (st'.parts.getD j1 UpdatePart.default).fullPath =
        (st'.parts.getD j2 UpdatePart.default).fullPath ∧
      (st'.parts.getD j1 UpdatePart.default).partOffset =
        (st'.parts.getD j2 UpdatePart.default).partOffset ∧
      (st'.parts.getD j1 UpdatePart.default).partByteCount =
        (st'.parts.getD j2 UpdatePart.default).partByteCount ∧
      (st'.parts.getD j1 UpdatePart.default).paddedSize = m1.paddedSize ∧
      (st'.parts.getD j2 UpdatePart.default).paddedSize = m2.paddedSize ∧
      st'.order.countP
        (fun e => decide (e.1 = ((parsePackageFile packageLines).getD j1 ([], [])).2)) = 1 := by
  obtain ⟨st', hloop, hcoh', hplen', hcurU, hcurL, ⟨tail', hord'⟩, hmono',
    hbelow', habove', hentry'⟩ :=
    packLoop_char fs meta (parsePackageFile packageLines) 0
      ⟨[], [], 2048, UpdateHeader.default.parts⟩ (coh_st0 fs) hfs hmeta
      (by omega) st0_parts_length (by simpa using hbound)
  have hsmallOrd : ∀ p d, (p, d) ∈ st'.order → d.length ≤ padOf d := by
    intro p d hpd
    exact (padOf_spec d (hsf p d (hcoh'.2.2.1 p d hpd))).2.1
  obtain ⟨body, hbody⟩ : ∃ body, bodyBytes st'.fileMap st'.order = some body :=
    ⟨_, bodyBytes_char st'.fileMap st'.order (coh_order_lookup fs st' hcoh')
      hsmallOrd⟩
  obtain ⟨d1, off1, m1, hd1, hm1, hfm1, hpart1⟩ := hentry' j1 hj1
  obtain ⟨d2, off2, m2, hd2, hm2, hfm2, hpart2⟩ := hentry' j2 hj2
  rw [hpath] at hfm1 hd1
  rw [hd2] at hd1
  injection hd1 with hd12
  subst hd12
  rw [hfm2] at hfm1
  injection hfm1 with hfm1
  injection hfm1 with e1 hfm1
  injection hfm1 with e2 e3
  rw [Nat.zero_add] at hpart1 hpart2
  refine ⟨st', _, m1, m2,
    pack_rkaf_eq packageLines metadataLines paramLines fs model manufacturer
      meta st' body hmp hmne hne hloop hbody, hloop, hm1, hm2, ?_, ?_, ?_, ?_,
    ?_, ?_, ?_⟩
  · rw [hpart1, hpart2]
    show encodeFixed 32 _ ≠ encodeFixed 32 _
    intro he
    apply hn
    have r1 := encodeFixed_decode 32 _ hn1 hz1
    have r2 := encodeFixed_decode 32 _ hn2 hz2
    rw [he, r2] at r1
    injection r1 with r
    exact r.symm
  · rw [hpart1, hpart2]
    show encodeFixed 60 _ = encodeFixed 60 _
    rw [hpath]
  · rw [hpart1, hpart2]
    show off1 = off2
    rw [e2]
  · rw [hpart1, hpart2]
    rfl
  · rw [hpart1]
    rfl
  · rw [hpart2]
    rfl
  · apply count_key_once st'.order _ hcoh'.2.1
    obtain ⟨hpad, k, hk, hgetk, hoff⟩ := hcoh'.2.2.2.1 _ _ _ _ hfm2
    rw [← hpath] at hgetk
    apply List.mem_map.mpr
    refine ⟨(((parsePackageFile packageLines).getD j1 ([], [])).2, d2), ?_, rfl⟩
    rw [← hgetk]
    exact getD_mem _ _ _ hk

/-- C7 witness: the two-name one-file manifest `aliasPkg` satisfies the
amended aliasing conclusions. -/
theorem c7_aliasing_witness :
    ∃ st' B m1 m2,
      pack_rkaf aliasPkg aliasMeta [] wFs (asc "m") (asc "M") = some (.ok B) ∧
      packLoop wFs aliasMetaParsed (parsePackageFile aliasPkg) 0
        ⟨[], [], 2048, UpdateHeader.default.parts⟩ = some (.ok st') ∧
      alookup aliasMetaParsed ((parsePackageFile aliasPkg).getD 0 ([], [])).1 =
        some m1 ∧
      alookup aliasMetaParsed ((parsePackageFile aliasPkg).getD 1 ([], [])).1 =
        some m2 ∧
      (st'.parts.getD 0 UpdatePart.default).name ≠
        (st'.parts.getD 1 UpdatePart.default).name ∧
      (st'.parts.getD 0 UpdatePart.default).fullPath =
        (st'.parts.getD 1 UpdatePart.default).fullPath ∧
      (st'.parts.getD 0 UpdatePart.default).partOffset =
        (st'.parts.getD 1 UpdatePart.default).partOffset ∧
      (st'.parts.getD 0 UpdatePart.default).partByteCount =
        (st'.parts.getD 1 UpdatePart.default).partByteCount ∧
      (st'.parts.getD 0 UpdatePart.default).paddedSize = m1.paddedSize ∧
      (st'.parts.getD 1 UpdatePart.default).paddedSize = m2.paddedSize ∧
      st'.order.countP
        (fun e => decide (e.1 = ((parsePackageFile aliasPkg).getD 0 ([], [])).2)) = 1 :=
  c7_aliasing aliasPkg aliasMeta [] wFs (asc "m") (asc "M") aliasMetaParsed 0 1
    (by rfl) (by decide) (by decide) (by decide) (by decide) (by decide)
    (by
      intro p d h
      simp only [wFs, alookup] at h
      split at h
      · injection h with h
        subst h
        decide
      · exact Option.noConfusion h)
    (by decide) (by decide) (by decide) (by decide) (by decide) (by decide)
    (by decide) (by decide) (by decide)

/-- C7 counterexample: packing `aliasPkg` (names `boot` and `alt` for the one
file `boot.img`, with different geometry `padded_size` values) succeeds, and
the two resulting entries have **equal** `full_path` fields and **different**
`padded_size` fields — the claim's "distinct name/full_path fields but
identical part_offset and padded size" is false on both counts. -/
theorem c7_cex :
    packLoop wFs aliasMetaParsed (parsePackageFile aliasPkg) 0
      ⟨[], [], 2048, UpdateHeader.default.parts⟩ = some (.ok aliasSt) ∧
    pack_rkaf aliasPkg aliasMeta [] wFs (asc "m") (asc "M") =
      some (.ok (headerToBytes (packHeader (parsePackageFile aliasPkg).length
          (parseMachineId []) (asc "m") (asc "M") aliasSt) ++ aliasBody ++
        u32le (rkcrc32 0 (headerToBytes (packHeader (parsePackageFile aliasPkg).length
          (parseMachineId []) (asc "m") (asc "M") aliasSt) ++ aliasBody)))) ∧
    (aliasSt.parts.getD 0 UpdatePart.default).fullPath =
      (aliasSt.parts.getD 1 UpdatePart.default).fullPath ∧
    (aliasSt.parts.getD 0 UpdatePart.default).paddedSize = 0x800 ∧
    (aliasSt.parts.getD 1 UpdatePart.default).paddedSize = 0x1000 := by
  have hloop : packLoop wFs aliasMetaParsed (parsePackageFile aliasPkg) 0
      ⟨[], [], 2048, UpdateHeader.default.parts⟩ = some (.ok aliasSt) := by rfl
  have hbody : bodyBytes aliasSt.fileMap aliasSt.order = some aliasBody := by
    show bodyBytes aliasSt.fileMap [(asc "boot.img", [1, 2, 3])] = some aliasBody
    rw [bodyBytes,
      show alookup aliasSt.fileMap (asc "boot.img") = some ([1, 2, 3], 2048, 2048)
        from by decide]
    show (if ([1, 2, 3] : Str).length ≤ 2048 then
        (bodyBytes aliasSt.fileMap []).map
          (fun tail => [1, 2, 3] ++ List.replicate (2048 - 3) 0 ++ tail)
      else none) = some aliasBody
    rw [if_pos (by decide)]
    show some ([1, 2, 3] ++ List.replicate (2048 - 3) 0 ++ []) = some aliasBody
    rw [List.append_nil]
    rfl
  refine ⟨hloop, ?_, by decide, by decide, by decide⟩
  exact pack_rkaf_eq aliasPkg aliasMeta [] wFs (asc "m") (asc "M")
    aliasMetaParsed aliasSt aliasBody (by rfl) (by decide) (by decide) hloop hbody

/-! ### Outer-container pack -/

/-- `pack_rkfw` unfolded on the success path. -/
theorem pack_rkfw_ok (bootData updateData chip version : Str) (ts : Int)
    (codeHex : Str) (md5fn : Str → Str) (code major minor build chipCode : Nat)
    (hcode : fromStrRadix16 (strip0X (strip0x codeHex)) = some code)
    (hv3 : (splitByte 46 version).length = 3)
    (hmaj : parseDec 256 ((splitByte 46 version).getD 0 []) = some major)
    (hmin : parseDec 256 ((splitByte 46 version).getD 1 []) = some minor)
    (hbui : parseDec 65536 ((splitByte 46 version).getD 2 []) = some build)
    (hchip : chip_name_to_code chip = .ok chipCode)
    (hupd : ¬ (updateData.length < 4 ∨ updateData.take 4 ≠ asc "RKAF"))
    (hts : ¬ (ts < 0 ∨ (8210266876800 : Int) ≤ ts)) :
    pack_rkfw bootData updateData chip version ts codeHex md5fn =
      .ok (rkfwHeaderBytes bootData.length updateData.length chip ts code major
          minor build chipCode ++ bootData ++ updateData ++
        digestHex (md5fn (rkfwHeaderBytes bootData.length updateData.length chip
          ts code major minor build chipCode ++ bootData ++ updateData))) := by
  simp only [pack_rkfw, hcode, hmaj, hmin, hbui, hchip, if_neg (not_not_intro hv3),
    if_neg hupd, if_neg hts, ne_eq, rkfwHeaderBytes]

theorem getD_append_left (A B : Str) (j : Nat) (h : j < A.length) :
    (A ++ B).getD j 0 = A.getD j 0 := by
  simp only [List.getD]
  rw [List.get?_append h]

theorem u32leAt_append_left (A B : Str) (i : Nat) (h : i + 3 < A.length) :
    u32leAt (A ++ B) i = u32leAt A i := by
  unfold u32leAt
  rw [getD_append_left A B i (by omega), getD_append_left A B (i + 1) (by omega),
    getD_append_left A B (i + 2) (by omega), getD_append_left A B (i + 3) (by omega)]

theorem hexDigit_range (n : Nat) (h : n < 16) :
    (48 ≤ hexDigit n ∧ hexDigit n ≤ 57) ∨ (97 ≤ hexDigit n ∧ hexDigit n ≤ 102) := by
  unfold hexDigit
  split <;> omega

theorem digestHex_mem (d : Str) :
    ∀ b ∈ digestHex d, (48 ≤ b ∧ b ≤ 57) ∨ (97 ≤ b ∧ b ≤ 102) := by
  intro b hb
  unfold digestHex at hb
  rw [List.mem_flatMap] at hb
  obtain ⟨x, _, hx⟩ := hb
  simp only [List.mem_cons, List.not_mem_nil, or_false] at hx
  rcases hx with h1 | h1 <;> subst h1 <;>
    exact hexDigit_range _ (Nat.mod_lt _ (by omega))

theorem digestHex_length (d : Str) : (digestHex d).length = 2 * d.length := by
  induction d with
  | nil => rfl
  | cons x rest ih =>
    simp only [digestHex, List.flatMap_cons] at ih ⊢
    simp [ih]
    omega

theorem minimalHeader_wf : wfHeader minimalHeader := by decide

theorem minimalRkaf_length : minimalRkaf.length = 2052 := by
  simp [minimalRkaf, headerToBytes_length minimalHeader minimalHeader_wf, u32le_length]

theorem minimalRkaf_take4 : minimalRkaf.take 4 = asc "RKAF" := by
  have h := congrArg UpdateHeader.magic
    (headerFromBytes_headerToBytes minimalHeader minimalHeader_wf)
  rw [minimalRkaf, List.take_append_of_le_length
    (by rw [headerToBytes_length minimalHeader minimalHeader_wf]; omega)]
  simpa [headerFromBytes, minimalHeader, UpdateHeader.default] using h

theorem minimalRkaf_valid : validContainer minimalRkaf := by
  have hto := headerToBytes_length minimalHeader minimalHeader_wf
  have htake : minimalRkaf.take 2048 = headerToBytes minimalHeader := by
    rw [minimalRkaf, List.take_left' hto]
  have hdrop : minimalRkaf.drop 2048 = u32le (rkcrc32 0 (headerToBytes minimalHeader)) := by
    rw [minimalRkaf, List.drop_left' hto]
  unfold validContainer headerSize
  refine ⟨by rw [minimalRkaf_length], ?_, ?_, ?_, ?_⟩
  · rw [htake, headerFromBytes_headerToBytes minimalHeader minimalHeader_wf]; decide
  · rw [htake, headerFromBytes_headerToBytes minimalHeader minimalHeader_wf]; decide
  · rw [htake, headerFromBytes_headerToBytes minimalHeader minimalHeader_wf,
      minimalRkaf_length]
    decide
  · rw [minimalRkaf_length]
    show minimalRkaf.drop 2048 = u32le (rkcrc32 0 (minimalRkaf.take 2048))
    rw [hdrop, htake]

/-- C9: packing the outer container from a 100-byte BOOT blob and the minimal
valid 0-partition RKAF container, with chip RK3566, version 8.1.0, timestamp
1731031994 and code 0x02000000, succeeds; the output's header (offset, size)
pairs at 0x19/0x1d and 0x21/0x25 locate the 100-byte blob at offset 0x66 and
the embedded container immediately after it at offset 0x66 + 100, the bytes at
those regions are exactly the blob and the container, and the appended
trailing text is a 32-byte string of lowercase hexadecimal characters (the
rendered MD5 digest, modelled by any 16-byte digest function). -/
theorem c9_end_to_end (md5fn : Str → Str) (hmd5 : ∀ x, (md5fn x).length = 16) :
    validContainer minimalRkaf ∧ minimalRkaf.length = 2052 ∧
    ∃ out : Str,
      pack_rkfw (List.replicate 100 7) minimalRkaf (asc "RK3566") (asc "8.1.0")
          1731031994 (asc "0x02000000") md5fn = .ok out ∧
      u32leAt out 0x19 = 0x66 ∧ u32leAt out 0x1d = 100 ∧
      u32leAt out 0x21 = 0x66 + 100 ∧ u32leAt out 0x25 = 2052 ∧
      (out.drop 0x66).take 100 = List.replicate 100 7 ∧
      (out.drop (0x66 + 100)).take 2052 = minimalRkaf ∧
      out.length = 0x66 + 100 + 2052 + 32 ∧
      ∀ b ∈ out.drop (0x66 + 100 + 2052),
        (48 ≤ b ∧ b ≤ 57) ∨ (97 ≤ b ∧ b ≤ 102) := by
  refine ⟨minimalRkaf_valid, minimalRkaf_length, ?_⟩
  have hupd : ¬ (minimalRkaf.length < 4 ∨ minimalRkaf.take 4 ≠ asc "RKAF") := by
    rw [minimalRkaf_length, minimalRkaf_take4]; decide
  have hok := pack_rkfw_ok (List.replicate 100 7) minimalRkaf (asc "RK3566")
    (asc "8.1.0") 1731031994 (asc "0x02000000") md5fn 33554432 8 1 0 56
    (by decide) (by decide) (by decide) (by decide) (by decide) (by rfl) hupd (by decide)
  have hH : rkfwHeaderBytes (List.replicate 100 7 : Str).length minimalRkaf.length
      (asc "RK3566") 1731031994 33554432 8 1 0 56 = c9hdr := by
    rw [minimalRkaf_length, List.length_replicate]
    decide
  rw [hH] at hok
  have hD32 : (digestHex (md5fn (c9hdr ++ List.replicate 100 7 ++ minimalRkaf))).length
      = 32 := by rw [digestHex_length, hmd5]
  set D := digestHex (md5fn (c9hdr ++ List.replicate 100 7 ++ minimalRkaf)) with hDdef
  have hc9len : c9hdr.length = 102 := by decide
  have e1 : c9hdr ++ List.replicate 100 7 ++ minimalRkaf ++ D
      = c9hdr ++ (List.replicate 100 7 ++ (minimalRkaf ++ D)) := by
    simp [List.append_assoc]
  have e2 : c9hdr ++ List.replicate 100 7 ++ minimalRkaf ++ D
      = (c9hdr ++ List.replicate 100 7) ++ (minimalRkaf ++ D) := by
    simp [List.append_assoc]
  have h202 : (c9hdr ++ List.replicate 100 7 : Str).length = 202 := by
    rw [List.length_append, hc9len, List.length_replicate]
  have h2254 : ((c9hdr ++ List.replicate 100 7) ++ minimalRkaf : Str).length = 2254 := by
    rw [List.length_append, h202, minimalRkaf_length]
  refine ⟨_, hok, ?_, ?_, ?_, ?_, ?_, ?_, ?_, ?_⟩
  · rw [e1, u32leAt_append_left _ _ _ (by rw [hc9len]; omega)]; decide
  · rw [e1, u32leAt_append_left _ _ _ (by rw [hc9len]; omega)]; decide
  · rw [e1, u32leAt_append_left _ _ _ (by rw [hc9len]; omega)]; decide
  · rw [e1, u32leAt_append_left _ _ _ (by rw [hc9len]; omega)]; decide
  · rw [e1, List.drop_left' hc9len, List.take_left' (by simp)]
  · rw [e2, List.drop_left' h202, List.take_left' minimalRkaf_length]
  · simp only [List.length_append, List.length_replicate, hc9len, minimalRkaf_length, hD32]
  · rw [List.drop_left' h2254, hDdef]
    exact digestHex_mem _

theorem c9_end_to_end_witness :
    validContainer minimalRkaf ∧ minimalRkaf.length = 2052 ∧
    ∃ out : Str,
      pack_rkfw (List.replicate 100 7) minimalRkaf (asc "RK3566") (asc "8.1.0")
          1731031994 (asc "0x02000000") (fun _ => List.replicate 16 0) = .ok out ∧
      u32leAt out 0x19 = 0x66 ∧ u32leAt out 0x1d = 100 ∧
      u32leAt out 0x21 = 0x66 + 100 ∧ u32leAt out 0x25 = 2052 ∧
      (out.drop 0x66).take 100 = List.replicate 100 7 ∧
      (out.drop (0x66 + 100)).take 2052 = minimalRkaf ∧
      out.length = 0x66 + 100 + 2052 + 32 ∧
      ∀ b ∈ out.drop (0x66 + 100 + 2052),
        (48 ≤ b ∧ b ≤ 57) ∨ (97 ≤ b ∧ b ≤ 102) :=
  c9_end_to_end (fun _ => List.replicate 16 0) (fun _ => rfl)

/-! ### Lemmas for the pack/unpack round trip (C1) -/

theorem hexDigit_spec (m : Nat) (h : m < 16) :
    isHexB (hexDigit m) = true ∧ hexVal (hexDigit m) = m := by
  unfold isHexB hexVal hexDigit
  split
  · refine ⟨?_, ?_⟩
    · simp only [Bool.or_eq_true, Bool.and_eq_true, decide_eq_true_eq]
      omega
    · split <;> (try split) <;> omega
  · refine ⟨?_, ?_⟩
    · simp only [Bool.or_eq_true, Bool.and_eq_true, decide_eq_true_eq]
      omega
    · split <;> (try split) <;> omega

theorem parseHexDigits_cons_hex (acc m : Nat) (rest : Str) (hm : m < 16) :
    parseHexDigits acc (hexDigit m :: rest) = parseHexDigits (acc * 16 + m) rest := by
  have h := hexDigit_spec m hm
  rw [parseHexDigits, if_pos h.1, h.2]

theorem parseHexDigits_hex8 (v : Nat) (h : v < 2 ^ 32) :
    parseHexDigits 0 (hex8 v) = some v := by
  unfold hex8
  rw [parseHexDigits_cons_hex _ _ _ (Nat.mod_lt _ (by norm_num)),
    parseHexDigits_cons_hex _ _ _ (Nat.mod_lt _ (by norm_num)),
    parseHexDigits_cons_hex _ _ _ (Nat.mod_lt _ (by norm_num)),
    parseHexDigits_cons_hex _ _ _ (Nat.mod_lt _ (by norm_num)),
    parseHexDigits_cons_hex _ _ _ (Nat.mod_lt _ (by norm_num)),
    parseHexDigits_cons_hex _ _ _ (Nat.mod_lt _ (by norm_num)),
    parseHexDigits_cons_hex _ _ _ (Nat.mod_lt _ (by norm_num)),
    parseHexDigits_cons_hex _ _ _ (Nat.mod_lt _ (by norm_num)),
    parseHexDigits]
  congr 1
  have e7 : (16 : Nat) ^ 7 = 268435456 := by norm_num
  have e6 : (16 : Nat) ^ 6 = 16777216 := by norm_num
  have e5 : (16 : Nat) ^ 5 = 1048576 := by norm_num
  have e4 : (16 : Nat) ^ 4 = 65536 := by norm_num
  have e3 : (16 : Nat) ^ 3 = 4096 := by norm_num
  have e2 : (16 : Nat) ^ 2 = 256 := by norm_num
  have e32 : (2 : Nat) ^ 32 = 4294967296 := by norm_num
  rw [e7, e6, e5, e4, e3, e2] at *
  rw [e32] at h
  omega

theorem hexDigit_ge (m : Nat) : 48 ≤ hexDigit m := by
  unfold hexDigit
  split <;> omega

theorem strip0x_hex8 (v : Nat) : strip0x (hex8 v) = hex8 v := by
  unfold hex8 strip0x
  split
  · next heq =>
    injection heq with h1 h2
    injection h2 with h2 _
    have := hexDigit_ge (v / 16 ^ 6 % 16)
    have h10 : hexDigit (v / 16 ^ 6 % 16) ≤ 102 := by
      unfold hexDigit
      split <;> omega
    omega
  · rfl

theorem fromStrRadix16_digits (b : Nat) (rest : Str) (hb : b ≠ 43) (v : Nat)
    (hv : v < 2 ^ 32) (hp : parseHexDigits 0 (b :: rest) = some v) :
    fromStrRadix16 (b :: rest) = some v := by
  simp only [fromStrRadix16]
  have hb' : ¬ ((b :: rest).head? = some 43) := by
    simp only [List.head?_cons, Option.some.injEq]
    exact hb
  rw [if_neg hb', if_neg (by simp), hp]
  show (if v < 2 ^ 32 then some v else none) = some v
  rw [if_pos hv]

theorem parseHexU32_hex0x (v : Nat) (h : v < 2 ^ 32) :
    parseHexU32 (hex0x v) = some v := by
  unfold parseHexU32 hex0x
  have e0 : strip0x (48 :: 120 :: hex8 v) = strip0x (hex8 v) := rfl
  rw [e0, strip0x_hex8]
  show fromStrRadix16 (hexDigit (v / 16 ^ 7 % 16) :: _) = some v
  refine fromStrRadix16_digits _ _ ?_ v h (parseHexDigits_hex8 v h)
  have := hexDigit_ge (v / 16 ^ 7 % 16)
  omega

theorem hex0x_no_comma (v : Nat) : 44 ∉ hex0x v := by
  intro hmem
  have hr : ∀ m : Nat, (44 : Nat) ≠ hexDigit m := by
    intro m
    have := hexDigit_ge m
    omega
  simp only [hex0x, hex8, List.mem_cons, List.not_mem_nil, or_false] at hmem
  rcases hmem with h | h | h | h | h | h | h | h | h | h <;>
    first
      | omega
      | exact hr _ h

theorem hex0x_getLast (v : Nat) : (hex0x v).getLast? = some (hexDigit (v % 16)) := rfl

theorem splitByte_not_mem (sep : Nat) :
    ∀ (s : Str), sep ∉ s → splitByte sep s = [s] := by
  intro s
  induction s with
  | nil => intro _; rfl
  | cons b rest ih =>
    intro h
    have hb : b ≠ sep := fun e => h (by simp [e])
    have hr : sep ∉ rest := fun m => h (List.mem_cons_of_mem _ m)
    rw [splitByte]
    simp only [ih hr]
    rw [if_neg hb]

theorem splitByte_append (sep : Nat) :
    ∀ (A B : Str), sep ∉ A → splitByte sep (A ++ sep :: B) = A :: splitByte sep B := by
  intro A
  induction A with
  | nil =>
    intro B _
    show splitByte sep (sep :: B) = [] :: splitByte sep B
    rw [splitByte, if_pos rfl]
  | cons a A ih =>
    intro B h
    have ha : a ≠ sep := fun e => h (by simp [e])
    have hA : sep ∉ A := fun m => h (List.mem_cons_of_mem _ m)
    show splitByte sep (a :: (A ++ sep :: B)) = (a :: A) :: splitByte sep B
    rw [splitByte]
    simp only [ih B hA]
    rw [if_neg ha]

theorem splitByte_metaLine (n p : Str) (part : UpdatePart)
    (hn : 44 ∉ n) (hp : 44 ∉ p) :
    splitByte 44 (metaLine n p part) =
      [n, p, hex0x part.flashSize, hex0x part.flashOffset, hex0x part.partOffset,
       hex0x part.paddedSize, hex0x part.partByteCount] := by
  have e : metaLine n p part = n ++ 44 :: (p ++ 44 :: (hex0x part.flashSize ++ 44 ::
      (hex0x part.flashOffset ++ 44 :: (hex0x part.partOffset ++ 44 ::
      (hex0x part.paddedSize ++ 44 :: hex0x part.partByteCount))))) := by
    simp [metaLine, List.append_assoc]
  rw [e, splitByte_append _ _ _ hn, splitByte_append _ _ _ hp,
    splitByte_append _ _ _ (hex0x_no_comma _), splitByte_append _ _ _ (hex0x_no_comma _),
    splitByte_append _ _ _ (hex0x_no_comma _), splitByte_append _ _ _ (hex0x_no_comma _),
    splitByte_not_mem _ _ (hex0x_no_comma _)]

theorem dropWhile_head_false (p : Nat → Bool) :
    ∀ (s : Str), (∀ b, s.head? = some b → p b = false) → s.dropWhile p = s := by
  intro s
  cases s with
  | nil => intro _; rfl
  | cons b rest =>
    intro h
    rw [List.dropWhile_cons, h b rfl]
    simp

theorem getLast_app {α : Type} (A B : List α) (x : α) (h : B.getLast? = some x) :
    (A ++ B).getLast? = some x := by
  rw [List.getLast?_append, h]
  rfl

theorem trimB_eq_self (s : Str)
    (hh : ∀ b, s.head? = some b → isWsB b = false)
    (hl : ∀ b, s.getLast? = some b → isWsB b = false) : trimB s = s := by
  unfold trimB
  rw [dropWhile_head_false _ s hh]
  rw [dropWhile_head_false _ s.reverse (by
    intro b hb
    rw [List.head?_reverse] at hb
    exact hl b hb)]
  exact List.reverse_reverse s

theorem getLast_cons {α : Type} (a : α) (B : List α) (x : α)
    (h : B.getLast? = some x) : (a :: B).getLast? = some x :=
  getLast_app [a] B x h

theorem head_app {α : Type} (A B : List α) (h : A ≠ []) :
    (A ++ B).head? = A.head? := by
  cases A with
  | nil => exact absurd rfl h
  | cons a A => rfl

theorem metaLine_getLast (n p : Str) (part : UpdatePart) :
    (metaLine n p part).getLast? = some (hexDigit (part.partByteCount % 16)) := by
  have e : metaLine n p part = n ++ 44 :: (p ++ 44 :: (hex0x part.flashSize ++ 44 ::
      (hex0x part.flashOffset ++ 44 :: (hex0x part.partOffset ++ 44 ::
      (hex0x part.paddedSize ++ 44 :: hex0x part.partByteCount))))) := by
    simp [metaLine, List.append_assoc]
  rw [e]
  exact getLast_app _ _ _ (getLast_cons _ _ _ (getLast_app _ _ _ (getLast_cons _ _ _
    (getLast_app _ _ _ (getLast_cons _ _ _ (getLast_app _ _ _ (getLast_cons _ _ _
    (getLast_app _ _ _ (getLast_cons _ _ _ (getLast_app _ _ _ (getLast_cons _ _ _
    (hex0x_getLast _))))))))))))

theorem metaLine_head (n p : Str) (part : UpdatePart) (h : n ≠ []) :
    (metaLine n p part).head? = n.head? := by
  have e : metaLine n p part = n ++ 44 :: (p ++ 44 :: (hex0x part.flashSize ++ 44 ::
      (hex0x part.flashOffset ++ 44 :: (hex0x part.partOffset ++ 44 ::
      (hex0x part.paddedSize ++ 44 :: hex0x part.partByteCount))))) := by
    simp [metaLine, List.append_assoc]
  rw [e, head_app _ _ h]

theorem metaLine_ne_nil (n p : Str) (part : UpdatePart) (h : n ≠ []) :
    metaLine n p part ≠ [] := by
  intro hemp
  have := metaLine_head n p part h
  rw [hemp] at this
  cases n with
  | nil => exact h rfl
  | cons a n => exact Option.noConfusion this

theorem isWsB_ge48 (b : Nat) (h : 48 ≤ b) : isWsB b = false := by
  unfold isWsB
  simp only [Bool.or_eq_false_iff, decide_eq_false_iff_not]
  omega

theorem parseMetaLines_export (partOf : Str × Str → UpdatePart) :
    ∀ (l : List (Str × Str)) (acc : List (Str × PartitionMetadata)),
    (∀ e ∈ l, e.1 ≠ [] ∧ (∀ b ∈ e.1, isWsB b = false ∧ b ≠ 44) ∧ 44 ∉ e.2 ∧
      (partOf e).flashSize < 2 ^ 32 ∧ (partOf e).flashOffset < 2 ^ 32 ∧
      (partOf e).paddedSize < 2 ^ 32) →
    parseMetaLines acc (l.map (fun e => metaLine e.1 e.2 (partOf e))) =
      .ok ((l.map (fun e => (e.1,
        (⟨(partOf e).flashSize, (partOf e).flashOffset, (partOf e).paddedSize⟩ :
          PartitionMetadata)))).reverse ++ acc) := by
  intro l
  induction l with
  | nil => intro acc _; rfl
  | cons e rest ih =>
    intro acc hg
    obtain ⟨hne, hnb, hpc, hs1, hs2, hs3⟩ := hg e (List.mem_cons_self _ _)
    have hhead : ∀ b, (metaLine e.1 e.2 (partOf e)).head? = some b → isWsB b = false := by
      intro b hbeq
      rw [metaLine_head _ _ _ hne] at hbeq
      cases hn : e.1 with
      | nil => exact absurd hn hne
      | cons a n' =>
        rw [hn] at hbeq
        injection hbeq with hbeq
        rw [← hbeq]
        exact (hnb a (by rw [hn]; exact List.mem_cons_self _ _)).1
    have hlast : ∀ b, (metaLine e.1 e.2 (partOf e)).getLast? = some b → isWsB b = false := by
      intro b hbeq
      rw [metaLine_getLast] at hbeq
      injection hbeq with hbeq
      subst hbeq
      exact isWsB_ge48 _ (hexDigit_ge _)
    have htrim : trimB (metaLine e.1 e.2 (partOf e)) = metaLine e.1 e.2 (partOf e) :=
      trimB_eq_self _ hhead hlast
    have hn44 : 44 ∉ e.1 := fun hm => ((hnb 44 hm).2 rfl)
    have hsplit := splitByte_metaLine e.1 e.2 (partOf e) hn44 hpc
    rw [List.map_cons]
    simp only [parseMetaLines]
    rw [htrim, if_neg (metaLine_ne_nil _ _ _ hne), hsplit]
    have hlen : (7 : Nat) ≤ ([e.1, e.2, hex0x (partOf e).flashSize,
        hex0x (partOf e).flashOffset, hex0x (partOf e).partOffset,
        hex0x (partOf e).paddedSize, hex0x (partOf e).partByteCount].length) := by
      simp
    rw [if_pos hlen]
    have g2 : ([e.1, e.2, hex0x (partOf e).flashSize, hex0x (partOf e).flashOffset,
        hex0x (partOf e).partOffset, hex0x (partOf e).paddedSize,
        hex0x (partOf e).partByteCount].getD 2 []) = hex0x (partOf e).flashSize := rfl
    have g3 : ([e.1, e.2, hex0x (partOf e).flashSize, hex0x (partOf e).flashOffset,
        hex0x (partOf e).partOffset, hex0x (partOf e).paddedSize,
        hex0x (partOf e).partByteCount].getD 3 []) = hex0x (partOf e).flashOffset := rfl
    have g5 : ([e.1, e.2, hex0x (partOf e).flashSize, hex0x (partOf e).flashOffset,
        hex0x (partOf e).partOffset, hex0x (partOf e).paddedSize,
        hex0x (partOf e).partByteCount].getD 5 []) = hex0x (partOf e).paddedSize := rfl
    have g0 : ([e.1, e.2, hex0x (partOf e).flashSize, hex0x (partOf e).flashOffset,
        hex0x (partOf e).partOffset, hex0x (partOf e).paddedSize,
        hex0x (partOf e).partByteCount].getD 0 []) = e.1 := rfl
    rw [g2, g3, g5, g0, parseHexU32_hex0x _ hs1, parseHexU32_hex0x _ hs2,
      parseHexU32_hex0x _ hs3]
    show parseMetaLines ((e.1, ⟨(partOf e).flashSize, (partOf e).flashOffset,
        (partOf e).paddedSize⟩) :: acc) (rest.map (fun e => metaLine e.1 e.2 (partOf e))) = _
    rw [ih _ (fun x hx => hg x (List.mem_cons_of_mem _ hx))]
    simp [List.append_assoc]

theorem filterMap_eq_map_of_getD {α β γ : Type} (dA : α) (dC : γ) :
    ∀ (l : List α) (l2 : List γ) (f : α → Option β) (g : γ → β),
    l.length = l2.length →
    (∀ j, j < l.length → f (l.getD j dA) = some (g (l2.getD j dC))) →
    l.filterMap f = l2.map g := by
  intro l
  induction l with
  | nil =>
    intro l2 f g hlen _
    cases l2 with
    | nil => rfl
    | cons c cs => simp at hlen
  | cons a as ih =>
    intro l2 f g hlen hj
    cases l2 with
    | nil => simp at hlen
    | cons c cs =>
      have h0 := hj 0 (by simp)
      simp only [List.getD_cons_zero] at h0
      have htail : as.filterMap f = cs.map g := by
        refine ih cs f g (by simpa using hlen) ?_
        intro j hjlt
        have := hj (j + 1) (by simp only [List.length_cons]; omega)
        simpa only [List.getD_cons_succ] using this
      rw [List.filterMap_cons, h0]
      show g c :: as.filterMap f = (c :: cs).map g
      rw [htail, List.map_cons]

theorem alookup_mem {α : Type} :
    ∀ (L : List (Str × α)) (k : Str) (v : α), alookup L k = some v → (k, v) ∈ L := by
  intro L
  induction L with
  | nil => intro k v h; exact Option.noConfusion h
  | cons e rest ih =>
    intro k v h
    obtain ⟨k', v'⟩ := e
    rw [alookup] at h
    by_cases he : k' = k
    · rw [if_pos he] at h
      injection h with h
      subst he
      subst h
      exact List.mem_cons_self _ _
    · rw [if_neg he] at h
      exact List.mem_cons_of_mem _ (ih k v h)

theorem alookup_of_nodup {α : Type} :
    ∀ (L : List (Str × α)) (k : Str) (v : α), (L.map Prod.fst).Nodup →
    (k, v) ∈ L → alookup L k = some v := by
  intro L
  induction L with
  | nil => intro k v _ hm; simp at hm
  | cons e rest ih =>
    intro k v hnd hm
    obtain ⟨k', v'⟩ := e
    rw [List.map_cons, List.nodup_cons] at hnd
    rw [alookup]
    rcases List.mem_cons.mp hm with he | hm'
    · injection he with h1 h2
      subst h1
      subst h2
      rw [if_pos rfl]
    · by_cases hne : k' = k
      · exfalso
        have hk : k ∈ List.map Prod.fst rest := List.mem_map.mpr ⟨(k, v), hm', rfl⟩
        rw [← hne] at hk
        exact hnd.1 hk
      · rw [if_neg hne]
        exact ih k v hnd.2 hm'

theorem alookup_map_snd (F : Str → Str) :
    ∀ (l : List (Str × Str)) (p : Str), p ∈ l.map Prod.snd →
    alookup (l.map (fun e => (e.2, F e.2))) p = some (F p) := by
  intro l
  induction l with
  | nil => intro p hp; simp at hp
  | cons e rest ih =>
    intro p hp
    rw [List.map_cons, alookup]
    rw [List.map_cons] at hp
    by_cases he : e.2 = p
    · rw [if_pos he, he]
    · rw [if_neg he]
      rcases List.mem_cons.mp hp with h | h
      · exact absurd h.symm he
      · exact ih p h

theorem getD_take' {α : Type} (l : List α) (n j : Nat) (d : α) (h : j < n) :
    (l.take n).getD j d = l.getD j d := by
  simp [List.getD, List.getElem?_take, h]

theorem mem_take_getD {α : Type} (l : List α) (n : Nat) (x : α) (d : α)
    (h : x ∈ l.take n) : ∃ j, j < n ∧ j < l.length ∧ l.getD j d = x := by
  obtain ⟨j, hj, hget⟩ := List.getElem_of_mem h
  have hj' : j < n ∧ j < l.length := by
    simp only [List.length_take, lt_min_iff] at hj
    exact hj
  refine ⟨j, hj'.1, hj'.2, ?_⟩
  rw [List.getD_eq_getElem _ _ hj'.2, ← hget, List.getElem_take]

/-- `packLoad` depends on the input directory only through the looked-up
path. -/
theorem packLoad_congr (fs1 fs2 : List (Str × Str)) (path : Str) (st : PackSt)
    (h : alookup fs1 path = alookup fs2 path) :
    packLoad fs1 path st = packLoad fs2 path st := by
  unfold packLoad
  cases hm : alookup st.fileMap path with
  | some v => rfl
  | none => rw [h]

/-- The layout loop depends on the input directory and the metadata map only
through the lookups of the manifest entries it processes. -/
theorem packLoop_congr (fs1 fs2 : List (Str × Str))
    (meta1 meta2 : List (Str × PartitionMetadata)) :
    ∀ (entries : List (Str × Str)) (i : Nat) (st : PackSt),
    (∀ e ∈ entries, alookup fs1 e.2 = alookup fs2 e.2) →
    (∀ e ∈ entries, alookup meta1 e.1 = alookup meta2 e.1) →
    packLoop fs1 meta1 entries i st = packLoop fs2 meta2 entries i st := by
  intro entries
  induction entries with
  | nil => intro i st _ _; rfl
  | cons e rest ih =>
    intro i st hfs hmeta
    obtain ⟨name, path⟩ := e
    rw [packLoop, packLoop, packLoad_congr fs1 fs2 path st
      (hfs (name, path) (List.mem_cons_self _ _))]
    cases packLoad fs2 path st with
    | error err => rfl
    | ok r =>
      obtain ⟨off, size, st'⟩ := r
      show (match alookup meta1 name with
        | none => some (Except.error "Missing partition metadata")
        | some m =>
          if i < 16 then
            packLoop fs1 meta1 rest (i + 1)
              ⟨st'.fileMap, st'.order, st'.cursor,
               st'.parts.set i (mkPart name path m off size)⟩
          else none) = _
      rw [hmeta (name, path) (List.mem_cons_self _ _)]
      cases hm2 : alookup meta2 name with
      | none => rfl
      | some m =>
        show (if i < 16 then
            packLoop fs1 meta1 rest (i + 1)
              ⟨st'.fileMap, st'.order, st'.cursor,
               st'.parts.set i (mkPart name path m off size)⟩
          else none) =
          (if i < 16 then
            packLoop fs2 meta2 rest (i + 1)
              ⟨st'.fileMap, st'.order, st'.cursor,
               st'.parts.set i (mkPart name path m off size)⟩
          else none)
        by_cases hi : i < 16
        · rw [if_pos hi, if_pos hi]
          exact ih (i + 1) _ (fun x hx => hfs x (List.mem_cons_of_mem _ hx))
            (fun x hx => hmeta x (List.mem_cons_of_mem _ hx))
        · rw [if_neg hi, if_neg hi]

theorem wfPart_default : wfPart UpdatePart.default := by decide

theorem wfPart_mkPart (name path : Str) (m : PartitionMetadata) (off size : Nat)
    (h1 : m.flashSize < 2 ^ 32) (h2 : m.flashOffset < 2 ^ 32)
    (h3 : m.paddedSize < 2 ^ 32) (h4 : off < 2 ^ 32) (h5 : size < 2 ^ 32) :
    wfPart (mkPart name path m off size) :=
  ⟨encodeFixed_length 32 _ (by omega), encodeFixed_length 60 _ (by omega),
    h1, h4, h2, h3, h5⟩

/-- The header built by a successful pack is well-formed whenever the filled
partition array is. -/
theorem wfHeader_packHeader (nParts : Nat) (machineId model manufacturer : Str)
    (st : PackSt) (hplen : st.parts.length = 16)
    (hpwf : ∀ p ∈ st.parts, wfPart p) :
    wfHeader (packHeader nParts machineId model manufacturer st) := by
  refine ⟨?_, ?_, ?_, ?_, ?_, ?_, ?_, ?_, ?_, ?_, ?_⟩
  · show (asc "RKAF").length = 4
    decide
  · exact Nat.mod_lt _ (by norm_num)
  · exact encodeFixed_length 34 _ (by omega)
  · show (if machineId = [] then List.replicate 30 0
      else encodeFixed 30 (32 :: machineId)).length = 30
    by_cases h : machineId = []
    · rw [if_pos h]
      rfl
    · rw [if_neg h]
      exact encodeFixed_length 30 _ (by omega)
  · exact encodeFixed_length 56 _ (by omega)
  · show (0 : Nat) < 2 ^ 32
    decide
  · show (0x01000000 : Nat) < 2 ^ 32
    decide
  · exact Nat.mod_lt _ (by norm_num)
  · exact hplen
  · exact hpwf
  · show (List.replicate 116 0 : Str).length = 116
    decide

/-- C1 counterexample: a valid partition-table container with partition count
0 (within the claimed range 0–16).  Unpacking it succeeds and exports an
empty metadata manifest and no files, but re-packing with that exported
manifest and the 0-entry package manifest does not reproduce the container:
`pack_rkaf` rejects an empty package-file with a structured error. -/
theorem c1_cex :
    validContainer minimalRkaf ∧
    (headerFromBytes (minimalRkaf.take headerSize)).numParts = 0 ∧
    unpack_rkafp minimalRkaf = some (.ok ([], [])) ∧
    pack_rkaf [] [] [] [] [] [] = some (.error "No files found in package-file") := by
  have hh : headerFromBytes (minimalRkaf.take headerSize) = minimalHeader := by
    show headerFromBytes (minimalRkaf.take 2048) = minimalHeader
    rw [minimalRkaf, List.take_left' (headerToBytes_length minimalHeader minimalHeader_wf),
      headerFromBytes_headerToBytes minimalHeader minimalHeader_wf]
  refine ⟨minimalRkaf_valid, by rw [hh]; rfl, ?_, by rfl⟩
  unfold unpack_rkafp
  rw [hh, if_neg (by rw [minimalRkaf_length]; decide), if_neg (by decide),
    if_pos (by decide)]
  rfl

/-- Slicing a packed container at a data-region offset reads from the body. -/
theorem slice_body (hdr body crc : Str) (hhdr : hdr.length = 2048) (s dlen : Nat)
    (hs : s + dlen ≤ body.length) :
    ((hdr ++ body ++ crc).drop (2048 + s)).take dlen = (body.drop s).take dlen := by
  have e : hdr ++ body ++ crc = hdr ++ (body ++ crc) := by
    simp [List.append_assoc]
  rw [e, show (2048 + s) = hdr.length + s from by rw [hhdr], ← List.drop_drop,
    List.drop_left, List.drop_append_of_le_length (by omega),
    List.take_append_of_le_length (by simp; omega)]

/-- C1 (amended): for every package manifest of 1 to 16 entries with distinct
partition names, well-formed names and paths, all files and geometry present,
files sector-roundable without `u32` overflow and total size within `u32`,
packing succeeds; unpacking the packed container succeeds; and re-packing
with the exported metadata manifest, the extracted files and the same package
manifest reproduces the original container byte for byte (header fields,
partition table, payload and trailing checksum included).  A partition count
of 0 is excluded: `pack_rkaf` rejects an empty package-file (see the
counterexample). -/
theorem c1_roundtrip (packageLines metadataLines paramLines : List Str)
    (fs : List (Str × Str)) (model manufacturer : Str)
    (meta : List (Str × PartitionMetadata))
    (hmp : parse_partition_metadata metadataLines = .ok meta)
    (hmne : ¬ meta = [])
    (hne : ¬ parsePackageFile packageLines = [])
    (h16 : (parsePackageFile packageLines).length ≤ 16)
    (hnd : ((parsePackageFile packageLines).map Prod.fst).Nodup)
    (hwfe : ∀ e ∈ parsePackageFile packageLines, wfEntry fs meta e)
    (hfsz : ∀ x ∈ fs, x.2.length + 2047 < 2 ^ 32)
    (hmv : ∀ x ∈ meta, x.2.flashSize < 2 ^ 32 ∧ x.2.flashOffset < 2 ^ 32 ∧
      x.2.paddedSize < 2 ^ 32)
    (hbound : 2048 + entPads fs (parsePackageFile packageLines) < 2 ^ 32) :
    ∃ B lines files,
      pack_rkaf packageLines metadataLines paramLines fs model manufacturer =
        some (.ok B) ∧
      unpack_rkafp B = some (.ok (lines, files)) ∧
      pack_rkaf packageLines lines paramLines files model manufacturer =
        some (.ok B) := by
  have hfs1 : ∀ e ∈ parsePackageFile packageLines, alookup fs e.2 ≠ none :=
    fun e he => (hwfe e he).2.2.2.2.2.2.2.1
  have hmeta1 : ∀ e ∈ parsePackageFile packageLines, alookup meta e.1 ≠ none :=
    fun e he => (hwfe e he).2.2.2.2.2.2.2.2
  have hsf : ∀ p d, alookup fs p = some d → d.length + 2047 < 2 ^ 32 :=
    fun p d h => hfsz (p, d) (alookup_mem fs p d h)
  have hmv' : ∀ k m2, alookup meta k = some m2 → m2.flashSize < 2 ^ 32 ∧
      m2.flashOffset < 2 ^ 32 ∧ m2.paddedSize < 2 ^ 32 :=
    fun k m2 h => hmv (k, m2) (alookup_mem meta k m2 h)
  obtain ⟨st', hloop, hcoh', hplen', hcurU, hcurL, ⟨tail', hord'⟩, hmono',
    hbelow', habove', hentry'⟩ :=
    packLoop_char fs meta (parsePackageFile packageLines) 0
      ⟨[], [], 2048, UpdateHeader.default.parts⟩ (coh_st0 fs) hfs1 hmeta1
      (by omega) st0_parts_length (by simpa using hbound)
  have hcurU' : st'.cursor ≤ 2048 + entPads fs (parsePackageFile packageLines) :=
    hcurU
  have hcurL' : 2048 ≤ st'.cursor := hcurL
  have hsmallOrd : ∀ p d, (p, d) ∈ st'.order → d.length ≤ padOf d := by
    intro p d hpd
    exact (padOf_spec d (hsf p d (hcoh'.2.2.1 p d hpd))).2.1
  have hbody := bodyBytes_char st'.fileMap st'.order
    (coh_order_lookup fs st' hcoh') hsmallOrd
  have hblen : ((st'.order.map
      (fun e => e.2 ++ List.replicate (padOf e.2 - e.2.length) 0)).flatten).length =
      sumPads st'.order := body_length st'.order hsmallOrd
  have hpack1 := pack_rkaf_eq packageLines metadataLines paramLines fs model
    manufacturer meta st' _ hmp hmne hne hloop hbody
  set body : Str := (st'.order.map
      (fun e => e.2 ++ List.replicate (padOf e.2 - e.2.length) 0)).flatten
    with hbodydef
  set h2 : UpdateHeader := packHeader (parsePackageFile packageLines).length
      (parseMachineId paramLines) model manufacturer st' with hh2def
  set B : Str := headerToBytes h2 ++ body ++
      u32le (rkcrc32 0 (headerToBytes h2 ++ body)) with hBdef
  -- well-formedness of the packed header
  have hoff32 : ∀ p d off pad, alookup st'.fileMap p = some (d, off, pad) →
      off < 2 ^ 32 := by
    intro p d off pad h
    obtain ⟨hpad, k, hk, hgetk, hoffeq⟩ := hcoh'.2.2.2.1 p d off pad h
    have h1 : sumPads (st'.order.take k) ≤ sumPads st'.order := sumPads_take_le _ _
    have h2c : st'.cursor = 2048 + sumPads st'.order := hcoh'.1
    have hentb : entPads fs (parsePackageFile packageLines) <
        2 ^ 32 := by omega
    omega
  have hpwf : ∀ p ∈ st'.parts, wfPart p := by
    intro p hp
    obtain ⟨k, hk, hkget⟩ := List.getElem_of_mem hp
    have hk16 : k < 16 := by rw [hplen'] at hk; exact hk
    have hpgetD : st'.parts.getD k UpdatePart.default = p := by
      rw [List.getD_eq_getElem _ _ hk]
      exact hkget
    by_cases hkn : k < (parsePackageFile packageLines).length
    · obtain ⟨dk, offk, mk, hdk, hmk, hfmk, hpartk⟩ := hentry' k hkn
      have hp_eq : p = mkPart ((parsePackageFile packageLines).getD k ([], [])).1
          ((parsePackageFile packageLines).getD k ([], [])).2 mk offk
          (dk.length % 2 ^ 32) := by
        rw [← hpgetD]
        simpa using hpartk
      rw [hp_eq]
      obtain ⟨hm1, hm2, hm3⟩ := hmv' _ mk hmk
      exact wfPart_mkPart _ _ _ _ _ hm1 hm2 hm3
        (hoff32 _ dk offk (padOf dk) hfmk) (Nat.mod_lt _ (by norm_num))
    · have habv := habove' k (by omega)
      have hdd : (UpdateHeader.default.parts).getD k UpdatePart.default =
          UpdatePart.default := by
        show (List.replicate 16 UpdatePart.default).getD k UpdatePart.default = _
        rw [List.getD_eq_getElem _ _ (by simp only [List.length_replicate]; omega),
          List.getElem_replicate]
      rw [← hpgetD, habv, hdd]
      exact wfPart_default
  have hwfh2 : wfHeader h2 := wfHeader_packHeader _ _ _ _ st' hplen' hpwf
  have hhlen : (headerToBytes h2).length = 2048 := headerToBytes_length h2 hwfh2
  have hBgroup : B = headerToBytes h2 ++
      (body ++ u32le (rkcrc32 0 (headerToBytes h2 ++ body))) := by
    rw [hBdef]
    simp [List.append_assoc]
  have hBtake : B.take 2048 = headerToBytes h2 := by
    rw [hBgroup, List.take_left' hhlen]
  have hBlen : B.length = 2048 + sumPads st'.order + 4 := by
    rw [hBdef]
    simp only [List.length_append, hhlen, hblen, u32le_length]
  have hh2B : headerFromBytes (B.take headerSize) = h2 := by
    show headerFromBytes (B.take 2048) = h2
    rw [hBtake, headerFromBytes_headerToBytes h2 hwfh2]
  have hnp : h2.numParts = (parsePackageFile packageLines).length := by
    show (parsePackageFile packageLines).length % 2 ^ 32 = _
    exact Nat.mod_eq_of_lt (by omega)
  -- per-index description of the packed partition entries
  have hjdesc : ∀ j, j < (parsePackageFile packageLines).length →
      ∃ dj offj mj,
        alookup fs ((parsePackageFile packageLines).getD j ([], [])).2 = some dj ∧
        alookup meta ((parsePackageFile packageLines).getD j ([], [])).1 = some mj ∧
        alookup st'.fileMap ((parsePackageFile packageLines).getD j ([], [])).2 =
          some (dj, offj, padOf dj) ∧
        st'.parts.getD j UpdatePart.default =
          mkPart ((parsePackageFile packageLines).getD j ([], [])).1
            ((parsePackageFile packageLines).getD j ([], [])).2 mj offj
            (dj.length % 2 ^ 32) ∧
        offj + dj.length ≤ 2048 + sumPads st'.order ∧
        dj.length % 2 ^ 32 = dj.length ∧
        (B.drop offj).take dj.length = dj := by
    intro j hj
    obtain ⟨dj, offj, mj, hdj, hmj, hfmj, hpartj⟩ := hentry' j hj
    obtain ⟨hpadj, k, hk, hgetk, hoffeq⟩ := hcoh'.2.2.2.1 _ dj offj (padOf dj) hfmj
    have hdsz := hsf _ dj hdj
    have hdlen : dj.length % 2 ^ 32 = dj.length := Nat.mod_eq_of_lt (by omega)
    have hts := sumPads_take_succ st'.order k hk
    have hts2 := sumPads_take_le st'.order (k + 1)
    have hgd : (st'.order.getD k ([], [])).2 = dj := by rw [hgetk]
    have hple : dj.length ≤ padOf dj :=
      (padOf_spec dj hdsz).2.1
    have hsb : sumPads (st'.order.take k) + dj.length ≤ sumPads st'.order := by
      rw [hgd] at hts
      omega
    refine ⟨dj, offj, mj, hdj, hmj, hfmj, by simpa using hpartj, ?_, hdlen, ?_⟩
    · omega
    · rw [hoffeq, hBdef, slice_body (headerToBytes h2) body _ hhlen _ _
        (by rw [hbodydef, hblen]; exact hsb)]
      rw [hbodydef]
      have hbs := body_slice st'.order hsmallOrd k hk
      rw [hgd] at hbs
      exact hbs
  -- every entry among the first `num_parts` is in range
  have hok : ∀ p ∈ st'.parts.take (parsePackageFile packageLines).length,
      entryOk B p := by
    intro p hp
    obtain ⟨j, hjn, hjl, hjget⟩ := mem_take_getD st'.parts _ p UpdatePart.default hp
    obtain ⟨dj, offj, mj, hdj, hmj, hfmj, hpartj, hoffb, hdlen, hslice⟩ := hjdesc j hjn
    left
    rw [← hjget, hpartj]
    show offj + dj.length % 2 ^ 32 ≤ B.length
    rw [hdlen, hBlen]
    omega
  have hunp : unpack_rkafp B =
      unpackLoop B (st'.parts.take (parsePackageFile packageLines).length) := by
    simp only [unpack_rkafp]
    rw [hh2B, if_neg (by rw [hBlen]; show ¬ (2048 + sumPads st'.order + 4 < 2048); omega),
      if_neg (by simp [show h2.magic = asc "RKAF" from rfl]),
      if_pos (by rw [hnp]; exact h16), hnp]
    rfl
  have hchar := unpackLoop_char B
    (st'.parts.take (parsePackageFile packageLines).length) hok
  -- the exported manifest lines and extracted files, entry by entry
  have hlines : (st'.parts.take (parsePackageFile packageLines).length).filterMap
      (fun p => (bytesUntilNul p.fullPath).bind (fun q =>
        if q = asc "SELF" ∨ q = asc "RESERVED" then none
        else some (metaLine ((bytesUntilNul p.name).getD []) q p))) =
      (parsePackageFile packageLines).map (fun e => metaLine e.1 e.2
        (mkPart e.1 e.2 ((alookup meta e.1).getD ⟨0, 0, 0⟩)
          (((alookup st'.fileMap e.2).getD ([], 0, 0)).2.1)
          (((alookup fs e.2).getD []).length % 2 ^ 32))) := by
    refine filterMap_eq_map_of_getD UpdatePart.default ([], []) _ _ _ _ ?_ ?_
    · simp only [List.length_take, hplen']
      omega
    · intro j hj
      have hjn : j < (parsePackageFile packageLines).length := by
        simp only [List.length_take, hplen'] at hj
        omega
      obtain ⟨dj, offj, mj, hdj, hmj, hfmj, hpartj, hoffb, hdlen, hslice⟩ :=
        hjdesc j hjn
      rw [getD_take' _ _ _ _ hjn, hpartj]
      have hejmem : (parsePackageFile packageLines).getD j ([], []) ∈
          parsePackageFile packageLines := getD_mem _ _ _ hjn
      obtain ⟨hn_ne, hn31, hnb, hp59, hpb, hps, hpr, _, _⟩ := hwfe _ hejmem
      have hdecp : bytesUntilNul (encodeFixed 60
          ((parsePackageFile packageLines).getD j ([], [])).2) =
          some ((parsePackageFile packageLines).getD j ([], [])).2 :=
        encodeFixed_decode 60 _ (by omega) (fun h0 => (hpb 0 h0).2 rfl)
      have hdecn : bytesUntilNul (encodeFixed 32
          ((parsePackageFile packageLines).getD j ([], [])).1) =
          some ((parsePackageFile packageLines).getD j ([], [])).1 :=
        encodeFixed_decode 32 _ (by omega) (fun h0 => (hnb 0 h0).2.2 rfl)
      show ((bytesUntilNul (encodeFixed 60
          ((parsePackageFile packageLines).getD j ([], [])).2)).bind (fun q =>
        if q = asc "SELF" ∨ q = asc "RESERVED" then none
        else some (metaLine ((bytesUntilNul (encodeFixed 32
          ((parsePackageFile packageLines).getD j ([], [])).1)).getD []) q
          (mkPart ((parsePackageFile packageLines).getD j ([], [])).1
            ((parsePackageFile packageLines).getD j ([], [])).2 mj offj
            (dj.length % 2 ^ 32))))) = _
      rw [hdecp, hdecn]
      show (if ((parsePackageFile packageLines).getD j ([], [])).2 = asc "SELF" ∨
          ((parsePackageFile packageLines).getD j ([], [])).2 = asc "RESERVED" then none
        else some (metaLine ((parsePackageFile packageLines).getD j ([], [])).1
          ((parsePackageFile packageLines).getD j ([], [])).2
          (mkPart ((parsePackageFile packageLines).getD j ([], [])).1
            ((parsePackageFile packageLines).getD j ([], [])).2 mj offj
            (dj.length % 2 ^ 32)))) = _
      rw [if_neg (by rintro (h | h); exact hps h; exact hpr h)]
      rw [hmj, hdj, hfmj]
      rfl
  have hfiles : (st'.parts.take (parsePackageFile packageLines).length).filterMap
      (fun p => (bytesUntilNul p.fullPath).bind (fun q =>
        if q = asc "SELF" ∨ q = asc "RESERVED" then none
        else some (q, (B.drop p.partOffset).take p.partByteCount))) =
      (parsePackageFile packageLines).map
        (fun e => (e.2, (alookup fs e.2).getD [])) := by
    refine filterMap_eq_map_of_getD UpdatePart.default ([], []) _ _ _ _ ?_ ?_
    · simp only [List.length_take, hplen']
      omega
    · intro j hj
      have hjn : j < (parsePackageFile packageLines).length := by
        simp only [List.length_take, hplen'] at hj
        omega
      obtain ⟨dj, offj, mj, hdj, hmj, hfmj, hpartj, hoffb, hdlen, hslice⟩ :=
        hjdesc j hjn
      rw [getD_take' _ _ _ _ hjn, hpartj]
      have hejmem : (parsePackageFile packageLines).getD j ([], []) ∈
          parsePackageFile packageLines := getD_mem _ _ _ hjn
      obtain ⟨hn_ne, hn31, hnb, hp59, hpb, hps, hpr, _, _⟩ := hwfe _ hejmem
      have hdecp : bytesUntilNul (encodeFixed 60
          ((parsePackageFile packageLines).getD j ([], [])).2) =
          some ((parsePackageFile packageLines).getD j ([], [])).2 :=
        encodeFixed_decode 60 _ (by omega) (fun h0 => (hpb 0 h0).2 rfl)
      show ((bytesUntilNul (encodeFixed 60
          ((parsePackageFile packageLines).getD j ([], [])).2)).bind (fun q =>
        if q = asc "SELF" ∨ q = asc "RESERVED" then none
        else some (q, (B.drop offj).take (dj.length % 2 ^ 32)))) = _
      rw [hdecp]
      show (if ((parsePackageFile packageLines).getD j ([], [])).2 = asc "SELF" ∨
          ((parsePackageFile packageLines).getD j ([], [])).2 = asc "RESERVED" then none
        else some (((parsePackageFile packageLines).getD j ([], [])).2,
          (B.drop offj).take (dj.length % 2 ^ 32))) = _
      rw [if_neg (by rintro (h | h); exact hps h; exact hpr h), hdlen, hslice, hdj]
      rfl
  -- parsing the exported manifest reproduces the used geometry
  have hgood : ∀ e ∈ parsePackageFile packageLines, e.1 ≠ [] ∧
      (∀ b ∈ e.1, isWsB b = false ∧ b ≠ 44) ∧ 44 ∉ e.2 ∧
      (mkPart e.1 e.2 ((alookup meta e.1).getD ⟨0, 0, 0⟩)
        (((alookup st'.fileMap e.2).getD ([], 0, 0)).2.1)
        (((alookup fs e.2).getD []).length % 2 ^ 32)).flashSize < 2 ^ 32 ∧
      (mkPart e.1 e.2 ((alookup meta e.1).getD ⟨0, 0, 0⟩)
        (((alookup st'.fileMap e.2).getD ([], 0, 0)).2.1)
        (((alookup fs e.2).getD []).length % 2 ^ 32)).flashOffset < 2 ^ 32 ∧
      (mkPart e.1 e.2 ((alookup meta e.1).getD ⟨0, 0, 0⟩)
        (((alookup st'.fileMap e.2).getD ([], 0, 0)).2.1)
        (((alookup fs e.2).getD []).length % 2 ^ 32)).paddedSize < 2 ^ 32 := by
    intro e he
    obtain ⟨hn_ne, hn31, hnb, hp59, hpb, hps, hpr, hfse, hmetae⟩ := hwfe e he
    obtain ⟨me, hme⟩ := Option.ne_none_iff_exists'.mp hmetae
    obtain ⟨hm1, hm2, hm3⟩ := hmv' _ me hme
    refine ⟨hn_ne, fun b hb => ⟨(hnb b hb).1, (hnb b hb).2.1⟩,
      fun hm => (hpb 44 hm).1 rfl, ?_, ?_, ?_⟩
    · show ((alookup meta e.1).getD ⟨0, 0, 0⟩).flashSize < 2 ^ 32
      rw [hme]
      exact hm1
    · show ((alookup meta e.1).getD ⟨0, 0, 0⟩).flashOffset < 2 ^ 32
      rw [hme]
      exact hm2
    · show ((alookup meta e.1).getD ⟨0, 0, 0⟩).paddedSize < 2 ^ 32
      rw [hme]
      exact hm3
  have hexport := parseMetaLines_export
    (fun e => mkPart e.1 e.2 ((alookup meta e.1).getD ⟨0, 0, 0⟩)
      (((alookup st'.fileMap e.2).getD ([], 0, 0)).2.1)
      (((alookup fs e.2).getD []).length % 2 ^ 32))
    (parsePackageFile packageLines) [] hgood
  rw [List.append_nil] at hexport
  have hexport' : parse_partition_metadata
      ((parsePackageFile packageLines).map (fun e => metaLine e.1 e.2
        (mkPart e.1 e.2 ((alookup meta e.1).getD ⟨0, 0, 0⟩)
          (((alookup st'.fileMap e.2).getD ([], 0, 0)).2.1)
          (((alookup fs e.2).getD []).length % 2 ^ 32)))) =
      .ok (((parsePackageFile packageLines).map
        (fun e => (e.1, (alookup meta e.1).getD ⟨0, 0, 0⟩))).reverse) := hexport
  have hmne2 : ¬ (((parsePackageFile packageLines).map
      (fun e => (e.1, (alookup meta e.1).getD ⟨0, 0, 0⟩))).reverse) = [] := by
    intro hbad
    rw [List.reverse_eq_nil_iff, List.map_eq_nil] at hbad
    exact hne hbad
  have hmeta2 : ∀ e ∈ parsePackageFile packageLines,
      alookup (((parsePackageFile packageLines).map
        (fun e => (e.1, (alookup meta e.1).getD ⟨0, 0, 0⟩))).reverse) e.1 =
      alookup meta e.1 := by
    intro e he
    obtain ⟨me, hme⟩ := Option.ne_none_iff_exists'.mp (hmeta1 e he)
    rw [hme]
    apply alookup_of_nodup
    · rw [List.map_reverse, List.nodup_reverse, List.map_map]
      exact hnd
    · rw [List.mem_reverse]
      have hmm : (e.1, (alookup meta e.1).getD (⟨0, 0, 0⟩ : PartitionMetadata)) ∈
          (parsePackageFile packageLines).map
            (fun e => (e.1, (alookup meta e.1).getD ⟨0, 0, 0⟩)) :=
        List.mem_map_of_mem
          (fun e => (e.1, (alookup meta e.1).getD (⟨0, 0, 0⟩ : PartitionMetadata))) he
      rw [hme] at hmm
      exact hmm
  have hfs2 : ∀ e ∈ parsePackageFile packageLines,
      alookup ((parsePackageFile packageLines).map
        (fun e => (e.2, (alookup fs e.2).getD []))) e.2 = alookup fs e.2 := by
    intro e he
    obtain ⟨de, hde⟩ := Option.ne_none_iff_exists'.mp (hfs1 e he)
    have h1 : alookup ((parsePackageFile packageLines).map
        (fun e => (e.2, (alookup fs e.2).getD []))) e.2 =
        some ((alookup fs e.2).getD []) :=
      alookup_map_snd (fun q => (alookup fs q).getD []) _ e.2
        (List.mem_map_of_mem Prod.snd he)
    rw [h1, hde]
    rfl
  have hloop2 : packLoop ((parsePackageFile packageLines).map
      (fun e => (e.2, (alookup fs e.2).getD [])))
      (((parsePackageFile packageLines).map
        (fun e => (e.1, (alookup meta e.1).getD ⟨0, 0, 0⟩))).reverse)
      (parsePackageFile packageLines) 0
      ⟨[], [], 2048, UpdateHeader.default.parts⟩ = some (.ok st') := by
    rw [packLoop_congr _ fs _ meta (parsePackageFile packageLines) 0 _ hfs2 hmeta2]
    exact hloop
  have hpack2 := pack_rkaf_eq packageLines
    ((parsePackageFile packageLines).map (fun e => metaLine e.1 e.2
      (mkPart e.1 e.2 ((alookup meta e.1).getD ⟨0, 0, 0⟩)
        (((alookup st'.fileMap e.2).getD ([], 0, 0)).2.1)
        (((alookup fs e.2).getD []).length % 2 ^ 32))))
    paramLines
    ((parsePackageFile packageLines).map (fun e => (e.2, (alookup fs e.2).getD [])))
    model manufacturer _ st' _ hexport' hmne2 hne hloop2 hbody
  rw [← hh2def] at hpack2
  rw [← hBdef] at hpack2
  refine ⟨B, _, _, hpack1, ?_, hpack2⟩
  rw [hunp, hchar, hlines, hfiles]

theorem c1_roundtrip_witness :
    ∃ B lines files,
      pack_rkaf [asc "n p"] [asc "n,x,0x1,0x2,0x0,0x3,0x0"] []
        [(asc "p", [65])] [] [] = some (.ok B) ∧
      unpack_rkafp B = some (.ok (lines, files)) ∧
      pack_rkaf [asc "n p"] lines [] files [] [] = some (.ok B) :=
  c1_roundtrip [asc "n p"] [asc "n,x,0x1,0x2,0x0,0x3,0x0"] [] [(asc "p", [65])]
    [] [] [(asc "n", ⟨1, 2, 3⟩)] (by rfl) (by decide) (by decide) (by decide)
    (by decide) (by decide) (by decide) (by decide) (by decide)

end Afptool
